import Mathlib

/-!
Verification of the P5 strategy analyzer engine (`src/unnamed/part_001`).

Shallow embedding conventions:
* JS strings are modelled as `List Char`.
* JS numbers are modelled as `ℤ` (all arithmetic in the engine is integral and
  stays far below 2^53, so `ℤ` is exact) or `ℕ` for counts; the few
  floating-point divisions (`winRate`, `profitRatio`, `avgPeriods`) are
  modelled as exact rationals `ℚ`; `Number(x.toFixed(3))` is modelled as
  rounding to 3 decimal places on `ℚ`.  Every claim below touches these fields
  only at branch points where the JS value is exact (0 or an integer), or in
  cross-path equalities where both paths evaluate the same expression.
* A draw's `numbers` array (invariant: 5 digits) is `Fin 5 → ℤ`; position
  indices are `Fin 5`.
* JS plain objects / `Map`s used as dictionaries are modelled as
  insertion-ordered association lists with lookup/insert-or-update semantics.
* `Int8Array` stores are modelled with an explicit signed-8-bit wrap `int8`.
-/

namespace P5

/-- The operator type `'+' | '-' | '*'` from `types.ts`. -/
inductive Op where
  | add
  | sub
  | mul
deriving DecidableEq, Repr

/-- `FormulaType` enum from `types.ts` (values `'1-Pos'` .. `'5-Pos'`). -/
inductive FormulaType where
  | ONE_POS
  | TWO_POS
  | THREE_POS
  | FOUR_POS
  | FIVE_POS
deriving DecidableEq, Repr

/-- `DrawData` from `types.ts`: issue id, date, and the 5 digit positions. -/
structure DrawData where
  issue : List Char
  date : List Char
  numbers : Fin 5 → ℤ

/-- `StrategyConfig` from `types.ts`. -/
structure StrategyConfig where
  id : List Char
  type : FormulaType
  inputIndices : List (Fin 5)
  operators : List Op
  targetIndices : List (Fin 5)
  offset : ℕ
  lookback : ℕ
  name : List Char
deriving DecidableEq, Repr

/-- `WIN_PROFIT = 606` from `types.ts`. -/
def WIN_PROFIT : ℤ := 606

/-- `LOSE_COST = -384` from `types.ts`. -/
def LOSE_COST : ℤ := -384

/-- `OVERHEAT_THRESHOLD = 8` from `types.ts`. -/
def OVERHEAT_THRESHOLD : ℤ := 8

/-- `getCombinations` from the analyzer: all `k`-subsets of `arr`, in the
order produced by `arr.flatMap((v, i) => getCombinations(arr.slice(i+1), k-1).map(c => [v, ...c]))`. -/
def getCombinations {α : Type} : List α → ℕ → List (List α)
  | _, 0 => [[]]
  | [], _ + 1 => []
  | v :: rest, k + 1 =>
      ((getCombinations rest k).map (fun c => v :: c)) ++ getCombinations rest (k + 1)

/-- `getOpPermutations` from the analyzer: all operator sequences of the given
length over `['+', '-', '*']`.  The source is only ever called with length
`≥ 1` (length 0 would not terminate in the JS source); we map 0 to `[]`. -/
def getOpPermutations : ℕ → List (List Op)
  | 0 => []
  | 1 => [Op.add, Op.sub, Op.mul].map (fun o => [o])
  | n + 2 =>
      [Op.add, Op.sub, Op.mul].flatMap
        (fun o => (getOpPermutations (n + 1)).map (fun s => o :: s))

/-- `POS_NAMES = ['万', '千', '百', '十', '个']`. -/
def POS_NAMES : Fin 5 → Char
  | 0 => '万'
  | 1 => '千'
  | 2 => '百'
  | 3 => '十'
  | 4 => '个'

/-- `OFFSETS = [0, 1, 2, 3, 4]`. -/
def OFFSETS : List ℕ := [0, 1, 2, 3, 4]

/-- `LOOKBACKS = [1, ..., 12]`. -/
def LOOKBACKS : List ℕ := [1, 2, 3, 4, 5, 6, 7, 8, 9, 10, 11, 12]

/-- `positions = [0, 1, 2, 3, 4]`. -/
def positions : List (Fin 5) := [0, 1, 2, 3, 4]

/-- `targetGroups = getCombinations(positions, 3)` (both call sites). -/
def targetGroups : List (List (Fin 5)) := getCombinations positions 3

/-- The character of an operator as it appears in ids and names. -/
def opChar : Op → Char
  | Op.add => '+'
  | Op.sub => '-'
  | Op.mul => '*'

/-- Decimal representation of a natural number as a character list
(models JS number-to-string coercion inside template literals). -/
def natChars (n : ℕ) : List Char := (Nat.repr n).data

/-- `xs.join('')` for a list of position indices (each rendered in decimal). -/
def digitsJoin (l : List (Fin 5)) : List Char := l.flatMap (fun x => natChars x.val)

/-- `ops.join('')` for a list of operators. -/
def opsJoin (l : List Op) : List Char := l.map opChar

/-- The `FormulaType` enum string values. -/
def typeChars : FormulaType → List Char
  | FormulaType.ONE_POS => ['1', '-', 'P', 'o', 's']
  | FormulaType.TWO_POS => ['2', '-', 'P', 'o', 's']
  | FormulaType.THREE_POS => ['3', '-', 'P', 'o', 's']
  | FormulaType.FOUR_POS => ['4', '-', 'P', 'o', 's']
  | FormulaType.FIVE_POS => ['5', '-', 'P', 'o', 's']

/-- The id template shared verbatim by `generateStrategies` and the worker:
`` `${type}-${inputs.join('')}-${ops.join('')}-T${targets.join('')}-K${offset}-L${lookback}` ``. -/
def idChars (type : FormulaType) (inputs : List (Fin 5)) (ops : List Op)
    (targets : List (Fin 5)) (offset lookback : ℕ) : List Char :=
  typeChars type ++ '-' :: digitsJoin inputs ++ '-' :: opsJoin ops
    ++ '-' :: 'T' :: digitsJoin targets ++ '-' :: 'K' :: natChars offset
    ++ '-' :: 'L' :: natChars lookback

/-- `nameSuffix`/`lbSuffix` appended to the base formula name (identical in
`generateStrategies` and the worker). -/
def nameWithSuffix (baseName : List Char) (offset lookback : ℕ) : List Char :=
  baseName ++ (if 0 < offset then '+' :: natChars offset else [])
    ++ (if 1 < lookback then '(' :: '回' :: natChars lookback ++ [')'] else [])

/-- A formula definition (type, input positions, operators, display name) as
built by both the main thread (implicitly, inside `generateStrategies`) and
the worker (its `formulas` array); both construct the same data in the same
order. -/
structure Formula where
  type : FormulaType
  inputs : List (Fin 5)
  ops : List Op
  name : List Char
deriving DecidableEq, Repr

/-- The base display name of a 2..5 position formula:
positions interleaved with operator characters. -/
def interleaveName (inputs : List (Fin 5)) (ops : List Op) : List Char :=
  match inputs with
  | [] => []
  | x :: rest => POS_NAMES x :: (ops.zip rest).flatMap
      (fun p => [opChar p.1, POS_NAMES p.2])

/-- The 341 formula definitions, in enumeration order (1-Pos, then 2-Pos with
input pairs outer and operator sequences inner, ..., then 5-Pos); this order
and content is identical in `generateStrategies` and in the worker's
`formulas` array. -/
def formulas : List Formula :=
  (positions.map (fun idx => ⟨FormulaType.ONE_POS, [idx], [], [POS_NAMES idx]⟩))
  ++ ((getCombinations positions 2).flatMap (fun inputs =>
        (getOpPermutations 1).map (fun ops =>
          ⟨FormulaType.TWO_POS, inputs, ops, interleaveName inputs ops⟩)))
  ++ ((getCombinations positions 3).flatMap (fun inputs =>
        (getOpPermutations 2).map (fun ops =>
          ⟨FormulaType.THREE_POS, inputs, ops, interleaveName inputs ops⟩)))
  ++ ((getCombinations positions 4).flatMap (fun inputs =>
        (getOpPermutations 3).map (fun ops =>
          ⟨FormulaType.FOUR_POS, inputs, ops, interleaveName inputs ops⟩)))
  ++ ((getOpPermutations 4).map (fun ops =>
        ⟨FormulaType.FIVE_POS, [0, 1, 2, 3, 4], ops,
          interleaveName [0, 1, 2, 3, 4] ops⟩))

/-- The `StrategyConfig` built for one (formula, targets, offset, lookback)
tuple — the object pushed by `addVariations` in `generateStrategies`, and
(field for field, including the id and name templates) the `config` object
pushed by the worker. -/
def mkConfig (f : Formula) (targets : List (Fin 5)) (offset lookback : ℕ) :
    StrategyConfig :=
  { id := idChars f.type f.inputs f.ops targets offset lookback
    type := f.type
    inputIndices := f.inputs
    operators := f.ops
    targetIndices := targets
    offset := offset
    lookback := lookback
    name := nameWithSuffix f.name offset lookback }

/-- `generateStrategies`: for each formula (in enumeration order),
`addVariations` pushes one config per target group (outer), offset (middle),
lookback (inner). -/
def generateStrategies : List StrategyConfig :=
  formulas.flatMap (fun f =>
    targetGroups.flatMap (fun targets =>
      OFFSETS.flatMap (fun offset =>
        LOOKBACKS.map (fun lookback => mkConfig f targets offset lookback))))

/-- One binary operator application (`'+' ? a+b : '-' ? a-b : a*b`). -/
def applyOp : Op → ℤ → ℤ → ℤ
  | Op.add, a, b => a + b
  | Op.sub, a, b => a - b
  | Op.mul, a, b => a * b

/-- The `FOUR_POS`/`FIVE_POS` accumulation loop of `getReferenceBase` (and the
`else` branch of the worker's inline calculation):
`temp = numbers[idx[0]]; for k: temp = op_k(temp, numbers[idx[k+1]])`. -/
def chainEval (numbers : Fin 5 → ℤ) (idx : List (Fin 5)) (ops : List Op) : ℤ :=
  (List.range ops.length).foldl
    (fun t k => applyOp (ops.getD k Op.add) t (numbers (idx.getD (k + 1) 0)))
    (numbers (idx.getD 0 0))

/-- The raw arithmetic result (`sum`) computed by `getReferenceBase` before
taking absolute value and modulus; branch per formula type exactly as in the
source (the worker's inline copy has the same branches, with `else` covering
4-Pos and 5-Pos). -/
def formulaSum (numbers : Fin 5 → ℤ) (type : FormulaType)
    (idx : List (Fin 5)) (ops : List Op) : ℤ :=
  match type with
  | FormulaType.ONE_POS => numbers (idx.getD 0 0)
  | FormulaType.TWO_POS =>
      applyOp (ops.getD 0 Op.add) (numbers (idx.getD 0 0)) (numbers (idx.getD 1 0))
  | FormulaType.THREE_POS =>
      applyOp (ops.getD 1 Op.add)
        (applyOp (ops.getD 0 Op.add) (numbers (idx.getD 0 0)) (numbers (idx.getD 1 0)))
        (numbers (idx.getD 2 0))
  | FormulaType.FOUR_POS => chainEval numbers idx ops
  | FormulaType.FIVE_POS => chainEval numbers idx ops

/-- `getReferenceBase`: `(Math.abs(sum) + config.offset) % 10`. -/
def getReferenceBase (numbers : Fin 5 → ℤ) (config : StrategyConfig) : ℤ :=
  (|formulaSum numbers config.type config.inputIndices config.operators| +
    (config.offset : ℤ)) % 10

/-! ### The Strategy Evaluator (`analyzeStrategy`) -/

/-- Fallback draw for out-of-range JS array indexing (never reached on the
index ranges the loops actually visit). -/
def defaultDraw : DrawData := ⟨[], [], fun _ => 0⟩

/-- `refA` for draw `i`: `getReferenceBase(draws[i - lookback].numbers, config)`. -/
def periodRefA (config : StrategyConfig) (draws : List DrawData) (i : ℕ) : ℤ :=
  getReferenceBase ((draws.getD (i - config.lookback) defaultDraw).numbers) config

/-- `refB = (refA + 5) % 10`. -/
def periodRefB (config : StrategyConfig) (draws : List DrawData) (i : ℕ) : ℤ :=
  (periodRefA config draws i + 5) % 10

/-- The `matchCount` loop: how many target positions of draw `i` equal
`refA` or `refB`. -/
def matchCountAt (config : StrategyConfig) (draws : List DrawData) (i : ℕ) : ℕ :=
  config.targetIndices.countP (fun tidx =>
    decide ((draws.getD i defaultDraw).numbers tidx = periodRefA config draws i ∨
      (draws.getD i defaultDraw).numbers tidx = periodRefB config draws i))

/-- `isWin = matchCount === 1`. -/
def isWinAt (config : StrategyConfig) (draws : List DrawData) (i : ℕ) : Bool :=
  matchCountAt config draws i == 1

/-- `profit = isWin ? WIN_PROFIT : LOSE_COST`. -/
def profitAt (config : StrategyConfig) (draws : List DrawData) (i : ℕ) : ℤ :=
  if isWinAt config draws i then WIN_PROFIT else LOSE_COST

/-- The mutable state of the analysis loop (both in `analyzeStrategy` and in
the worker's inner loop): profit accounting, streak tracking, streak
histograms and the per-year accumulator.  Histograms and the annual map are
JS dictionaries, modelled as insertion-ordered association lists. -/
structure AState where
  totalProfit : ℤ
  winDraws : ℕ
  currentStreak : ℤ
  maxWinStreak : ℤ
  maxLoseStreak : ℤ
  peakProfit : ℤ
  maxDrawdown : ℤ
  winCounts : List (ℕ × ℕ)
  lossCounts : List (ℕ × ℕ)
  annual : List (List Char × ℤ × ℕ × ℕ)
deriving DecidableEq, Repr

/-- All-zero initial state. -/
def initAState : AState := ⟨0, 0, 0, 0, 0, 0, 0, [], [], []⟩

/-- `m[k] = (m[k] || 0) + 1` on a JS dictionary keyed by streak length. -/
def bumpKey : List (ℕ × ℕ) → ℕ → List (ℕ × ℕ)
  | [], k => [(k, 1)]
  | (a, c) :: rest, k =>
      if a = k then (a, c + 1) :: rest else (a, c) :: bumpKey rest k

/-- `m[k] || 0`. -/
def lookupD : List (ℕ × ℕ) → ℕ → ℕ
  | [], _ => 0
  | (a, c) :: rest, k => if a = k then c else lookupD rest k

/-- Get-or-create then accumulate on the per-year map: profit, win count and
period count for the year key (identical logic in `analyzeStrategy`'s `Map`
and the worker's plain object). -/
def updAnnual : List (List Char × ℤ × ℕ × ℕ) → List Char → ℤ → Bool →
    List (List Char × ℤ × ℕ × ℕ)
  | [], year, profit, isWin => [(year, profit, if isWin then 1 else 0, 1)]
  | (y, p, w, c) :: rest, year, profit, isWin =>
      if y = year then
        (y, p + profit, w + (if isWin then 1 else 0), c + 1) :: rest
      else (y, p, w, c) :: updAnnual rest year profit isWin

/-- One iteration of `analyzeStrategy`'s main loop at draw index `i`
(`Math.abs` is `Int.natAbs`). -/
def mainStep (config : StrategyConfig) (draws : List DrawData) (s : AState)
    (i : ℕ) : AState :=
  let draw := draws.getD i defaultDraw
  let isWin := isWinAt config draws i
  let profit := if isWin then WIN_PROFIT else LOSE_COST
  let totalProfit := s.totalProfit + profit
  let peakProfit := if totalProfit > s.peakProfit then totalProfit else s.peakProfit
  let maxDrawdown :=
    if peakProfit - totalProfit > s.maxDrawdown then peakProfit - totalProfit
    else s.maxDrawdown
  let annual := updAnnual s.annual (draw.issue.take 4) profit isWin
  if isWin then
    let currentStreak := if s.currentStreak > 0 then s.currentStreak + 1 else 1
    { s with
      totalProfit := totalProfit
      winDraws := s.winDraws + 1
      currentStreak := currentStreak
      maxWinStreak :=
        if currentStreak > s.maxWinStreak then currentStreak else s.maxWinStreak
      peakProfit := peakProfit
      maxDrawdown := maxDrawdown
      lossCounts :=
        if s.currentStreak > 0 then s.lossCounts
        else if s.currentStreak < 0 then bumpKey s.lossCounts s.currentStreak.natAbs
        else s.lossCounts
      annual := annual }
  else
    let currentStreak := if s.currentStreak < 0 then s.currentStreak - 1 else -1
    { s with
      totalProfit := totalProfit
      currentStreak := currentStreak
      maxLoseStreak :=
        if (currentStreak.natAbs : ℤ) > s.maxLoseStreak then (currentStreak.natAbs : ℤ)
        else s.maxLoseStreak
      peakProfit := peakProfit
      maxDrawdown := maxDrawdown
      winCounts :=
        if s.currentStreak < 0 then s.winCounts
        else if s.currentStreak > 0 then bumpKey s.winCounts s.currentStreak.toNat
        else s.winCounts
      annual := annual }

/-- The indices visited by `for (let i = lookback; i < drawCount; i++)`. -/
def evalIndices (lookback drawCount : ℕ) : List ℕ :=
  List.range' lookback (drawCount - lookback)

/-- The full analysis loop of `analyzeStrategy`. -/
def analyzeLoop (config : StrategyConfig) (draws : List DrawData) : AState :=
  (evalIndices config.lookback draws.length).foldl (mainStep config draws) initAState

/-- The content of the `winHistory` array after the main loop: initialized
all-`false`, and set to the period outcome at every visited index. -/
def winHistB (config : StrategyConfig) (draws : List DrawData) : ℕ → Bool :=
  fun i =>
    if config.lookback ≤ i ∧ i < draws.length then isWinAt config draws i else false

/-- The survival simulation inner loop
(`for j = i+1; j < drawCount; j++ { simPnL += ...; simCount++; if simPnL <= -1000 break }`),
as a recursion over the remaining indices. -/
def simFrom (win : ℕ → Bool) (drawCount : ℕ) (j : ℕ) (pnl : ℤ) : ℕ :=
  if h : j < drawCount then
    let p := pnl + (if win j then WIN_PROFIT else LOSE_COST)
    if p ≤ -1000 then 1 else 1 + simFrom win drawCount (j + 1) p
  else 0
termination_by drawCount - j
decreasing_by omega

/-- One iteration of the survival-statistics scan (state: recorded periods,
`tempStreak`). -/
def survivalStep (win : ℕ → Bool) (drawCount : ℕ) (st : List ℕ × ℤ) (i : ℕ) :
    List ℕ × ℤ :=
  if win i then (st.1, (if st.2 < 0 then 0 else st.2) + 1)
  else
    ((if st.2 ≥ 9 then st.1 ++ [simFrom win drawCount (i + 1) 0] else st.1), -1)

/-- The survival-statistics scan over the evaluated indices (identical code in
`analyzeStrategy` and in the worker, which reads its `Uint8Array` through
`=== 1` comparisons). -/
def survivalLoop (win : ℕ → Bool) (lookback drawCount : ℕ) : List ℕ × ℤ :=
  (evalIndices lookback drawCount).foldl (survivalStep win drawCount) ([], 0)

/-- `AnnualStat` from `types.ts`. -/
structure AnnualStat where
  year : List Char
  profit : ℤ
  winCount : ℕ
  totalCount : ℕ
deriving DecidableEq, Repr

/-- Lexicographic comparison of character lists (JS string comparison; for
the 4-digit year keys `localeCompare` ordering and `<` agree with it). -/
def charListLe : List Char → List Char → Bool
  | [], _ => true
  | _ :: _, [] => false
  | a :: as, b :: bs => if a = b then charListLe as bs else decide (a < b)

/-- Insertion into a year-sorted record list. -/
def insertAnnual (a : AnnualStat) : List AnnualStat → List AnnualStat
  | [] => [a]
  | b :: rest =>
      if charListLe a.year b.year then a :: b :: rest else b :: insertAnnual a rest

/-- Emission of the per-year records sorted ascending by year.  This models
both sources observationally: `analyzeStrategy` converts its `Map` to records
and sorts them with `localeCompare` on the year, the worker sorts
`Object.keys` and then maps; with distinct year keys both produce exactly the
records in ascending year order. -/
def sortAnnualRecs (l : List AnnualStat) : List AnnualStat :=
  l.foldr insertAnnual []

/-- One accumulated annual entry as an emitted record. -/
def toAnnualStat (e : List Char × ℤ × ℕ × ℕ) : AnnualStat :=
  ⟨e.1, e.2.1, e.2.2.1, e.2.2.2⟩

/-- The `streakCounts` field: win and loss histograms. -/
structure StreakCountsPair where
  win : List (ℕ × ℕ)
  loss : List (ℕ × ℕ)
deriving DecidableEq, Repr

/-- The `survivalStats` field. -/
structure SurvivalStats where
  count : ℕ
  periods : List ℕ
  avgPeriods : ℚ
deriving DecidableEq, Repr

/-- `StrategyStats` from `types.ts`. -/
structure StrategyStats where
  config : StrategyConfig
  totalDraws : ℕ
  winDraws : ℕ
  winRate : ℚ
  totalProfit : ℤ
  profitRatio : ℚ
  maxWinStreak : ℤ
  maxLoseStreak : ℤ
  maxDrawdown : ℤ
  currentStreak : ℤ
  isOverheated : Bool
  annualStats : List AnnualStat
  streakCounts : StreakCountsPair
  survivalStats : SurvivalStats
deriving DecidableEq, Repr

/-- Model of `Number(x.toFixed(3))`: rounding to 3 decimal places.  Only the
`grossLoss === 0` branch of `profitRatio` (which bypasses this) is examined
by any claim; both embedded paths use this same model. -/
def jsToFixed3 (q : ℚ) : ℚ := (round (q * 1000) : ℚ) / 1000

/-- `analyzeStrategy`: main loop, final streak flush, survival scan, and the
result record. -/
def analyzeStrategy (config : StrategyConfig) (draws : List DrawData) :
    StrategyStats :=
  let drawCount := draws.length
  let s := analyzeLoop config draws
  let winCounts :=
    if s.currentStreak > 0 then bumpKey s.winCounts s.currentStreak.toNat
    else s.winCounts
  let lossCounts :=
    if s.currentStreak < 0 then bumpKey s.lossCounts s.currentStreak.natAbs
    else s.lossCounts
  let survivalPeriods :=
    (survivalLoop (winHistB config draws) config.lookback drawCount).1
  let processedDrawsCount := drawCount - config.lookback
  let grossProfit : ℤ := (s.winDraws : ℤ) * WIN_PROFIT
  let grossLoss : ℤ := ((processedDrawsCount : ℤ) - (s.winDraws : ℤ)) * |LOSE_COST|
  { config := config
    totalDraws := processedDrawsCount
    winDraws := s.winDraws
    winRate :=
      if 0 < processedDrawsCount then ((s.winDraws : ℚ) / processedDrawsCount) * 100
      else 0
    totalProfit := s.totalProfit
    profitRatio :=
      if grossLoss = 0 then (grossProfit : ℚ)
      else jsToFixed3 ((grossProfit : ℚ) / (grossLoss : ℚ))
    maxWinStreak := s.maxWinStreak
    maxLoseStreak := s.maxLoseStreak
    maxDrawdown := s.maxDrawdown
    currentStreak := s.currentStreak
    isOverheated := decide (s.currentStreak ≥ OVERHEAT_THRESHOLD)
    annualStats := sortAnnualRecs (s.annual.map toAnnualStat)
    streakCounts := ⟨winCounts, lossCounts⟩
    survivalStats :=
      ⟨survivalPeriods.length, survivalPeriods,
        if 0 < survivalPeriods.length then
          (survivalPeriods.sum : ℚ) / (survivalPeriods.length : ℚ)
        else 0⟩ }

/-- `PeriodStat` from `types.ts`. -/
structure PeriodStat where
  issue : List Char
  isWin : Bool
  profit : ℤ
  cumulativeProfit : ℤ
deriving DecidableEq, Repr

/-- One iteration of `generateHistory`'s loop (state: records so far,
`cumulativeProfit`); the per-period logic is the same win test and profit
rule as in `analyzeStrategy`. -/
def historyStep (config : StrategyConfig) (draws : List DrawData)
    (st : List PeriodStat × ℤ) (i : ℕ) : List PeriodStat × ℤ :=
  let draw := draws.getD i defaultDraw
  let isWin := isWinAt config draws i
  let profit := if isWin then WIN_PROFIT else LOSE_COST
  let cum := st.2 + profit
  (st.1 ++ [⟨draw.issue, isWin, profit, cum⟩], cum)

/-- `generateHistory` (the Single-Config Recomputer). -/
def generateHistory (config : StrategyConfig) (draws : List DrawData) :
    List PeriodStat :=
  ((evalIndices config.lookback draws.length).foldl (historyStep config draws)
    ([], 0)).1

/-! ### The worker (Batch Orchestrator) -/

/-- Signed-8-bit wrap of an `Int8Array` element store. -/
def int8 (v : ℤ) : ℤ := (v + 128) % 256 - 128

/-- The worker's `refBaseArray` (an `Int8Array` initialized to 0, filled with
`Math.abs(sum) % 10` for every `i` in `[lookback, drawCount)`; the inline
`sum` computation has the same branches as `getReferenceBase`, with `else`
covering 4-Pos and 5-Pos). -/
def workerRefBase (form : Formula) (lookback drawCount : ℕ)
    (draws : List DrawData) : ℕ → ℤ :=
  fun i =>
    if lookback ≤ i ∧ i < drawCount then
      int8 (|formulaSum (draws.getD (i - lookback) defaultDraw).numbers
        form.type form.inputs form.ops| % 10)
    else 0

/-- The worker's `refA_Array`: `ra = (refBaseArray[i] + offset) % 10`. -/
def workerRefA (form : Formula) (lookback offset drawCount : ℕ)
    (draws : List DrawData) : ℕ → ℤ :=
  fun i =>
    if lookback ≤ i ∧ i < drawCount then
      int8 ((workerRefBase form lookback drawCount draws i + (offset : ℤ)) % 10)
    else 0

/-- The worker's `refB_Array`: `(ra + 5) % 10` (from the unwrapped local `ra`). -/
def workerRefB (form : Formula) (lookback offset drawCount : ℕ)
    (draws : List DrawData) : ℕ → ℤ :=
  fun i =>
    if lookback ≤ i ∧ i < drawCount then
      int8 (((workerRefBase form lookback drawCount draws i + (offset : ℤ)) % 10 + 5)
        % 10)
    else 0

/-- The worker's unrolled match count over the three target positions. -/
def workerMatches (targets : List (Fin 5)) (n : Fin 5 → ℤ) (ra rb : ℤ) : ℕ :=
  (if n (targets.getD 0 0) = ra ∨ n (targets.getD 0 0) = rb then 1 else 0) +
  (if n (targets.getD 1 0) = ra ∨ n (targets.getD 1 0) = rb then 1 else 0) +
  (if n (targets.getD 2 0) = ra ∨ n (targets.getD 2 0) = rb then 1 else 0)

/-- The worker's per-period outcome (`matches === 1`) at draw index `i`. -/
def workerIsWinAt (form : Formula) (lookback offset : ℕ)
    (targets : List (Fin 5)) (draws : List DrawData) (i : ℕ) : Bool :=
  workerMatches targets (draws.getD i defaultDraw).numbers
    (workerRefA form lookback offset draws.length draws i)
    (workerRefB form lookback offset draws.length draws i) == 1

/-- One iteration of the worker's inner analysis loop (the worker uses
`-currentStreak` where `analyzeStrategy` uses `Math.abs(currentStreak)`). -/
def workerStep (targets : List (Fin 5)) (refAf refBf : ℕ → ℤ)
    (draws : List DrawData) (s : AState) (i : ℕ) : AState :=
  let n := (draws.getD i defaultDraw).numbers
  let ra := refAf i
  let rb := refBf i
  let isWin := workerMatches targets n ra rb == 1
  let profit := if isWin then WIN_PROFIT else LOSE_COST
  let totalProfit := s.totalProfit + profit
  let peakProfit := if totalProfit > s.peakProfit then totalProfit else s.peakProfit
  let maxDrawdown :=
    if peakProfit - totalProfit > s.maxDrawdown then peakProfit - totalProfit
    else s.maxDrawdown
  let annual :=
    updAnnual s.annual ((draws.getD i defaultDraw).issue.take 4) profit isWin
  if isWin then
    let currentStreak := if s.currentStreak > 0 then s.currentStreak + 1 else 1
    { s with
      totalProfit := totalProfit
      winDraws := s.winDraws + 1
      currentStreak := currentStreak
      maxWinStreak :=
        if currentStreak > s.maxWinStreak then currentStreak else s.maxWinStreak
      peakProfit := peakProfit
      maxDrawdown := maxDrawdown
      lossCounts :=
        if s.currentStreak > 0 then s.lossCounts
        else if s.currentStreak < 0 then bumpKey s.lossCounts (-s.currentStreak).toNat
        else s.lossCounts
      annual := annual }
  else
    let currentStreak := if s.currentStreak < 0 then s.currentStreak - 1 else -1
    { s with
      totalProfit := totalProfit
      currentStreak := currentStreak
      maxLoseStreak :=
        if -currentStreak > s.maxLoseStreak then -currentStreak else s.maxLoseStreak
      peakProfit := peakProfit
      maxDrawdown := maxDrawdown
      winCounts :=
        if s.currentStreak < 0 then s.winCounts
        else if s.currentStreak > 0 then bumpKey s.winCounts s.currentStreak.toNat
        else s.winCounts
      annual := annual }

/-- The worker's `winHistory` `Uint8Array` after its inner loop (1 = win). -/
def workerWinHistN (form : Formula) (lookback offset : ℕ)
    (targets : List (Fin 5)) (draws : List DrawData) : ℕ → ℕ :=
  fun i =>
    if lookback ≤ i ∧ i < draws.length then
      if workerIsWinAt form lookback offset targets draws i then 1 else 0
    else 0

/-- The full per-tuple analysis the worker performs for one
(formula, lookback, offset, targets) combination, producing the
`StrategyStats` object it pushes onto `results`. -/
def workerAnalyze (form : Formula) (lookback offset : ℕ)
    (targets : List (Fin 5)) (draws : List DrawData) : StrategyStats :=
  let drawCount := draws.length
  let refAf := workerRefA form lookback offset drawCount draws
  let refBf := workerRefB form lookback offset drawCount draws
  let s := (evalIndices lookback drawCount).foldl
    (workerStep targets refAf refBf draws) initAState
  let winCounts :=
    if s.currentStreak > 0 then bumpKey s.winCounts s.currentStreak.toNat
    else s.winCounts
  let lossCounts :=
    if s.currentStreak < 0 then bumpKey s.lossCounts (-s.currentStreak).toNat
    else s.lossCounts
  let winN := workerWinHistN form lookback offset targets draws
  let survivalPeriods :=
    (survivalLoop (fun j => winN j == 1) lookback drawCount).1
  let processedCount := drawCount - lookback
  let grossProfit : ℤ := (s.winDraws : ℤ) * WIN_PROFIT
  let grossLoss : ℤ := ((processedCount : ℤ) - (s.winDraws : ℤ)) * |LOSE_COST|
  { config := mkConfig form targets offset lookback
    totalDraws := processedCount
    winDraws := s.winDraws
    winRate :=
      if 0 < processedCount then ((s.winDraws : ℚ) / processedCount) * 100 else 0
    totalProfit := s.totalProfit
    profitRatio :=
      if grossLoss = 0 then (grossProfit : ℚ)
      else jsToFixed3 ((grossProfit : ℚ) / (grossLoss : ℚ))
    maxWinStreak := s.maxWinStreak
    maxLoseStreak := s.maxLoseStreak
    maxDrawdown := s.maxDrawdown
    currentStreak := s.currentStreak
    isOverheated := decide (s.currentStreak ≥ 8)
    annualStats := sortAnnualRecs (s.annual.map toAnnualStat)
    streakCounts := ⟨winCounts, lossCounts⟩
    survivalStats :=
      ⟨survivalPeriods.length, survivalPeriods,
        if 0 < survivalPeriods.length then
          (survivalPeriods.sum : ℚ) / (survivalPeriods.length : ℚ)
        else 0⟩ }

/-- The worker's full batch run: formulas (outer), lookbacks, offsets, target
groups (inner), pushing one `StrategyStats` per tuple. -/
def workerRun (draws : List DrawData) : List StrategyStats :=
  formulas.flatMap (fun form =>
    LOOKBACKS.flatMap (fun lookback =>
      OFFSETS.flatMap (fun offset =>
        targetGroups.map (fun targets =>
          workerAnalyze form lookback offset targets draws))))

/-! ### Generic fold infrastructure -/

/-- Two folds over the same list agree when the step functions agree on the
list's elements. -/
theorem foldl_congr_mem {α σ : Type _} {f g : σ → α → σ} :
    ∀ (l : List α), (∀ s a, a ∈ l → f s a = g s a) → ∀ s, l.foldl f s = l.foldl g s
  | [], _, _ => rfl
  | a :: l, h, s => by
    simp only [List.foldl_cons]
    rw [h s a (by simp)]
    exact foldl_congr_mem l (fun s' b hb => h s' b (by simp [hb])) _

/-- Prefix-indexed invariant preservation for `foldl`. -/
theorem foldl_inv {α σ : Type _} (f : σ → α → σ) (P : List α → σ → Prop)
    (step : ∀ pre s a, P pre s → P (pre ++ [a]) (f s a)) :
    ∀ (l pre : List α) (s : σ), P pre s → P (pre ++ l) (l.foldl f s)
  | [], pre, s, h => by simpa using h
  | a :: l, pre, s, h => by
    have h2 := foldl_inv f P step l (pre ++ [a]) (f s a) (step pre s a h)
    simpa using h2

@[simp] theorem evalIndices_length (lookback drawCount : ℕ) :
    (evalIndices lookback drawCount).length = drawCount - lookback := by
  simp [evalIndices]

/-! ### Projections of one analysis step -/

theorem mainStep_totalProfit (c : StrategyConfig) (d : List DrawData)
    (s : AState) (i : ℕ) :
    (mainStep c d s i).totalProfit = s.totalProfit + profitAt c d i := by
  simp only [mainStep, profitAt]
  cases h : isWinAt c d i <;> simp [h]

theorem mainStep_winDraws (c : StrategyConfig) (d : List DrawData)
    (s : AState) (i : ℕ) :
    (mainStep c d s i).winDraws = s.winDraws + (if isWinAt c d i then 1 else 0) := by
  simp only [mainStep]
  cases h : isWinAt c d i <;> simp [h]

/-! ### Projections of the final stats record -/

theorem analyzeStrategy_totalDraws (c : StrategyConfig) (d : List DrawData) :
    (analyzeStrategy c d).totalDraws = d.length - c.lookback := rfl

theorem analyzeStrategy_winDraws (c : StrategyConfig) (d : List DrawData) :
    (analyzeStrategy c d).winDraws = (analyzeLoop c d).winDraws := rfl

theorem analyzeStrategy_totalProfit (c : StrategyConfig) (d : List DrawData) :
    (analyzeStrategy c d).totalProfit = (analyzeLoop c d).totalProfit := rfl

theorem analyzeStrategy_profitRatio (c : StrategyConfig) (d : List DrawData) :
    (analyzeStrategy c d).profitRatio =
      if (((d.length - c.lookback : ℕ) : ℤ) - ((analyzeLoop c d).winDraws : ℤ))
          * |LOSE_COST| = 0 then
        ((((analyzeLoop c d).winDraws : ℤ) * WIN_PROFIT : ℤ) : ℚ)
      else
        jsToFixed3 (((((analyzeLoop c d).winDraws : ℤ) * WIN_PROFIT : ℤ) : ℚ) /
          (((((d.length - c.lookback : ℕ) : ℤ) - ((analyzeLoop c d).winDraws : ℤ))
            * |LOSE_COST| : ℤ) : ℚ)) := rfl

/-! ### The profit-accounting invariant (C1, C10) -/

/-- After the main loop: the total profit is determined by the win count and
the number of processed periods, and the win count never exceeds the period
count. -/
theorem analyzeLoop_profit_inv (c : StrategyConfig) (d : List DrawData) :
    (analyzeLoop c d).totalProfit =
        ((analyzeLoop c d).winDraws : ℤ) * WIN_PROFIT +
          (((evalIndices c.lookback d.length).length : ℤ) -
            ((analyzeLoop c d).winDraws : ℤ)) * LOSE_COST ∧
      (analyzeLoop c d).winDraws ≤ (evalIndices c.lookback d.length).length := by
  have h := foldl_inv (mainStep c d)
    (fun pre s =>
      s.totalProfit = (s.winDraws : ℤ) * WIN_PROFIT +
          ((pre.length : ℤ) - (s.winDraws : ℤ)) * LOSE_COST ∧
        s.winDraws ≤ pre.length)
    (fun pre s i hp => by
      obtain ⟨h1, h2⟩ := hp
      constructor
      · rw [mainStep_totalProfit, mainStep_winDraws, h1]
        simp only [profitAt, WIN_PROFIT, LOSE_COST, List.length_append,
          List.length_singleton]
        cases hw : isWinAt c d i <;> · simp only [hw, if_true, if_false, Bool.false_eq_true]; push_cast; ring
      · rw [mainStep_winDraws]
        simp only [List.length_append, List.length_singleton]
        cases hw : isWinAt c d i <;> simp <;> omega)
    (evalIndices c.lookback d.length) [] initAState (by simp [initAState])
  simpa [analyzeLoop, initAState] using h

/-! ### Characterization of the Single-Config Recomputer's records -/

/-- The records `generateHistory` appends for a given index list, starting
from a given cumulative profit. -/
def historyOf (c : StrategyConfig) (d : List DrawData) : ℤ → List ℕ → List PeriodStat
  | _, [] => []
  | base, i :: l =>
      ⟨(d.getD i defaultDraw).issue, isWinAt c d i, profitAt c d i,
        base + profitAt c d i⟩ :: historyOf c d (base + profitAt c d i) l

theorem historyStep_foldl (c : StrategyConfig) (d : List DrawData) :
    ∀ (l : List ℕ) (acc : List PeriodStat) (base : ℤ),
      l.foldl (historyStep c d) (acc, base) =
        (acc ++ historyOf c d base l, base + (l.map (profitAt c d)).sum)
  | [], acc, base => by simp [historyOf]
  | i :: l, acc, base => by
    have hstep : historyStep c d (acc, base) i =
        (acc ++ [⟨(d.getD i defaultDraw).issue, isWinAt c d i, profitAt c d i,
          base + profitAt c d i⟩], base + profitAt c d i) := rfl
    rw [List.foldl_cons, hstep, historyStep_foldl c d l]
    simp [historyOf]
    ring

theorem generateHistory_eq (c : StrategyConfig) (d : List DrawData) :
    generateHistory c d = historyOf c d 0 (evalIndices c.lookback d.length) := by
  unfold generateHistory
  rw [historyStep_foldl]
  simp

theorem historyOf_map_profit (c : StrategyConfig) (d : List DrawData) :
    ∀ (l : List ℕ) (base : ℤ),
      (historyOf c d base l).map (fun p => p.profit) = l.map (profitAt c d)
  | [], _ => rfl
  | i :: l, base => by
    simp [historyOf, historyOf_map_profit c d l]

theorem historyOf_map_isWin (c : StrategyConfig) (d : List DrawData) :
    ∀ (l : List ℕ) (base : ℤ),
      (historyOf c d base l).map (fun p => p.isWin) = l.map (fun i => isWinAt c d i)
  | [], _ => rfl
  | i :: l, base => by
    simp [historyOf, historyOf_map_isWin c d l]

theorem historyOf_length (c : StrategyConfig) (d : List DrawData) :
    ∀ (l : List ℕ) (base : ℤ), (historyOf c d base l).length = l.length
  | [], _ => rfl
  | i :: l, base => by
    simp [historyOf, historyOf_length c d l]

theorem historyOf_last_cum (c : StrategyConfig) (d : List DrawData) :
    ∀ (l : List ℕ) (base : ℤ),
      ((historyOf c d base l).map (fun p => p.cumulativeProfit)).getLastD base =
        base + (l.map (profitAt c d)).sum
  | [], _ => by simp [historyOf]
  | i :: l, base => by
    rw [show historyOf c d base (i :: l) =
      ⟨(d.getD i defaultDraw).issue, isWinAt c d i, profitAt c d i,
        base + profitAt c d i⟩ :: historyOf c d (base + profitAt c d i) l from rfl]
    rw [List.map_cons, List.getLastD_cons, historyOf_last_cum c d l]
    simp
    ring

/-! ### Drawdown: specification-side definitions (C8) -/

/-- The running peak of cumulative profit over a profit sequence (the
cumulative profit starts at 0 before the pass, so the peak includes 0). -/
def peakOfList (l : List ℤ) : ℤ :=
  ((List.range (l.length + 1)).map (fun j => (l.take j).sum)).foldl max 0

/-- The maximum over the whole pass of (running peak of cumulative profit
minus current cumulative profit). -/
def specMaxDrawdown (l : List ℤ) : ℤ :=
  ((List.range (l.length + 1)).map
    (fun k => peakOfList (l.take k) - (l.take k).sum)).foldl max 0

theorem take_append_le {α : Type _} (l l₂ : List α) (j : ℕ) (h : j ≤ l.length) :
    (l ++ l₂).take j = l.take j := by
  rw [List.take_append_eq_append_take]
  simp [Nat.sub_eq_zero_of_le h]

theorem le_foldl_max : ∀ (l : List ℤ) (a : ℤ), a ≤ l.foldl max a
  | [], _ => le_refl _
  | x :: l, a => le_trans (le_max_left a x) (le_foldl_max l (max a x))

theorem foldl_max_singleton (a v : ℤ) : List.foldl max a [v] = max a v := rfl

theorem peakOfList_nil : peakOfList [] = 0 := rfl

theorem specMaxDrawdown_nil : specMaxDrawdown [] = 0 := rfl

theorem peakOfList_snoc (l : List ℤ) (x : ℤ) :
    peakOfList (l ++ [x]) = max (peakOfList l) (l.sum + x) := by
  unfold peakOfList
  rw [List.length_append, List.length_singleton, List.range_succ,
    List.map_append, List.foldl_append]
  have hmap : (List.range (l.length + 1)).map (fun j => ((l ++ [x]).take j).sum) =
      (List.range (l.length + 1)).map (fun j => (l.take j).sum) := by
    apply List.map_congr_left
    intro j hj
    rw [take_append_le l [x] j (by simp at hj; omega)]
  rw [hmap]
  simp [List.take_of_length_le (by simp : l.length + 1 ≥ (l ++ [x]).length)]

theorem specMaxDrawdown_snoc (l : List ℤ) (x : ℤ) :
    specMaxDrawdown (l ++ [x]) =
      max (specMaxDrawdown l) (peakOfList (l ++ [x]) - (l.sum + x)) := by
  unfold specMaxDrawdown
  rw [List.length_append, List.length_singleton, List.range_succ,
    List.map_append, List.foldl_append]
  have hmap : (List.range (l.length + 1)).map
      (fun k => peakOfList ((l ++ [x]).take k) - ((l ++ [x]).take k).sum) =
      (List.range (l.length + 1)).map
        (fun k => peakOfList (l.take k) - (l.take k).sum) := by
    apply List.map_congr_left
    intro k hk
    rw [take_append_le l [x] k (by simp at hk; omega)]
  rw [hmap]
  simp [List.take_of_length_le (by simp : l.length + 1 ≥ (l ++ [x]).length)]

theorem if_gt_max (a b : ℤ) : (if a > b then a else b) = max b a := by
  rw [max_def]
  split <;> split <;> omega

theorem mainStep_peakProfit (c : StrategyConfig) (d : List DrawData)
    (s : AState) (i : ℕ) :
    (mainStep c d s i).peakProfit =
      if s.totalProfit + profitAt c d i > s.peakProfit then
        s.totalProfit + profitAt c d i
      else s.peakProfit := by
  simp only [mainStep, profitAt]
  cases h : isWinAt c d i <;> simp [h]

theorem mainStep_maxDrawdown (c : StrategyConfig) (d : List DrawData)
    (s : AState) (i : ℕ) :
    (mainStep c d s i).maxDrawdown =
      if (mainStep c d s i).peakProfit - (s.totalProfit + profitAt c d i) >
          s.maxDrawdown then
        (mainStep c d s i).peakProfit - (s.totalProfit + profitAt c d i)
      else s.maxDrawdown := by
  simp only [mainStep, profitAt]
  cases h : isWinAt c d i <;> simp [h]

/-- After the main loop: total profit is the sum, `peakProfit` is the running
peak, and `maxDrawdown` is the spec-side maximum of (peak - current). -/
theorem analyzeLoop_drawdown_inv (c : StrategyConfig) (d : List DrawData) :
    (analyzeLoop c d).totalProfit =
        ((evalIndices c.lookback d.length).map (profitAt c d)).sum ∧
      (analyzeLoop c d).peakProfit =
        peakOfList ((evalIndices c.lookback d.length).map (profitAt c d)) ∧
      (analyzeLoop c d).maxDrawdown =
        specMaxDrawdown ((evalIndices c.lookback d.length).map (profitAt c d)) := by
  have h := foldl_inv (mainStep c d)
    (fun pre s =>
      s.totalProfit = (pre.map (profitAt c d)).sum ∧
        s.peakProfit = peakOfList (pre.map (profitAt c d)) ∧
        s.maxDrawdown = specMaxDrawdown (pre.map (profitAt c d)))
    (fun pre s i hp => by
      obtain ⟨h1, h2, h3⟩ := hp
      have hpk : (mainStep c d s i).peakProfit =
          peakOfList ((pre ++ [i]).map (profitAt c d)) := by
        rw [mainStep_peakProfit, h1, h2, if_gt_max, List.map_append,
          List.map_singleton, peakOfList_snoc]
      refine ⟨?_, hpk, ?_⟩
      · rw [mainStep_totalProfit, h1]
        simp [profitAt]
      · rw [mainStep_maxDrawdown, hpk, h1, h3, if_gt_max, List.map_append,
          List.map_singleton, specMaxDrawdown_snoc])
    (evalIndices c.lookback d.length) [] initAState
    (by simp [initAState, peakOfList_nil, specMaxDrawdown_nil])
  simpa [analyzeLoop, initAState] using h

theorem analyzeStrategy_maxDrawdown (c : StrategyConfig) (d : List DrawData) :
    (analyzeStrategy c d).maxDrawdown = (analyzeLoop c d).maxDrawdown := rfl

/-- C8: `maxDrawdown` equals the maximum over the evaluated pass of (running
peak of cumulative profit minus current cumulative profit), computed over the
profit sequence of the evaluated periods, and is therefore nonnegative. -/
theorem claim_C8_maxDrawdown (config : StrategyConfig) (draws : List DrawData) :
    (analyzeStrategy config draws).maxDrawdown =
        specMaxDrawdown ((generateHistory config draws).map (fun p => p.profit)) ∧
      0 ≤ (analyzeStrategy config draws).maxDrawdown := by
  have hprof : (generateHistory config draws).map (fun p => p.profit) =
      (evalIndices config.lookback draws.length).map (profitAt config draws) := by
    rw [generateHistory_eq, historyOf_map_profit]
  obtain ⟨-, -, h3⟩ := analyzeLoop_drawdown_inv config draws
  constructor
  · rw [analyzeStrategy_maxDrawdown, hprof, h3]
  · rw [analyzeStrategy_maxDrawdown, h3]
    exact le_foldl_max _ 0

/-! ### C3: the worker path agrees with the single-config path -/

@[simp] theorem mkConfig_type (f : Formula) (t : List (Fin 5)) (o l : ℕ) :
    (mkConfig f t o l).type = f.type := rfl

@[simp] theorem mkConfig_inputIndices (f : Formula) (t : List (Fin 5)) (o l : ℕ) :
    (mkConfig f t o l).inputIndices = f.inputs := rfl

@[simp] theorem mkConfig_operators (f : Formula) (t : List (Fin 5)) (o l : ℕ) :
    (mkConfig f t o l).operators = f.ops := rfl

@[simp] theorem mkConfig_targetIndices (f : Formula) (t : List (Fin 5)) (o l : ℕ) :
    (mkConfig f t o l).targetIndices = t := rfl

@[simp] theorem mkConfig_offset (f : Formula) (t : List (Fin 5)) (o l : ℕ) :
    (mkConfig f t o l).offset = o := rfl

@[simp] theorem mkConfig_lookback (f : Formula) (t : List (Fin 5)) (o l : ℕ) :
    (mkConfig f t o l).lookback = l := rfl

theorem int8_id (v : ℤ) (h1 : 0 ≤ v) (h2 : v < 128) : int8 v = v := by
  unfold int8
  omega

theorem workerRefA_eq (form : Formula) (lookback offset : ℕ)
    (targets : List (Fin 5)) (draws : List DrawData) (i : ℕ)
    (h1 : lookback ≤ i) (h2 : i < draws.length) :
    workerRefA form lookback offset draws.length draws i =
      periodRefA (mkConfig form targets offset lookback) draws i := by
  unfold workerRefA workerRefBase periodRefA getReferenceBase
  simp only [mkConfig_type, mkConfig_inputIndices, mkConfig_operators,
    mkConfig_offset, mkConfig_lookback]
  rw [if_pos ⟨h1, h2⟩, if_pos ⟨h1, h2⟩]
  have habs : 0 ≤ |formulaSum (draws.getD (i - lookback) defaultDraw).numbers
      form.type form.inputs form.ops| := abs_nonneg _
  generalize |formulaSum (draws.getD (i - lookback) defaultDraw).numbers
    form.type form.inputs form.ops| = a at habs ⊢
  rw [int8_id (a % 10) (by omega) (by omega),
    int8_id ((a % 10 + (offset : ℤ)) % 10) (by omega) (by omega)]
  omega

theorem workerRefB_eq (form : Formula) (lookback offset : ℕ)
    (targets : List (Fin 5)) (draws : List DrawData) (i : ℕ)
    (h1 : lookback ≤ i) (h2 : i < draws.length) :
    workerRefB form lookback offset draws.length draws i =
      periodRefB (mkConfig form targets offset lookback) draws i := by
  unfold workerRefB periodRefB
  rw [← workerRefA_eq form lookback offset targets draws i h1 h2]
  unfold workerRefA workerRefBase
  rw [if_pos ⟨h1, h2⟩, if_pos ⟨h1, h2⟩, if_pos ⟨h1, h2⟩]
  have habs : 0 ≤ |formulaSum (draws.getD (i - lookback) defaultDraw).numbers
      form.type form.inputs form.ops| := abs_nonneg _
  generalize |formulaSum (draws.getD (i - lookback) defaultDraw).numbers
    form.type form.inputs form.ops| = a at habs ⊢
  rw [int8_id (a % 10) (by omega) (by omega),
    int8_id ((a % 10 + (offset : ℤ)) % 10) (by omega) (by omega),
    int8_id (((a % 10 + (offset : ℤ)) % 10 + 5) % 10) (by omega) (by omega)]

theorem workerMatches_eq (t0 t1 t2 : Fin 5) (n : Fin 5 → ℤ) (ra rb : ℤ) :
    workerMatches [t0, t1, t2] n ra rb =
      List.countP (fun tidx => decide (n tidx = ra ∨ n tidx = rb)) [t0, t1, t2] := by
  unfold workerMatches
  simp only [List.getD_cons_zero, List.getD_cons_succ, List.countP_cons,
    List.countP_nil, decide_eq_true_eq]
  by_cases h0 : n t0 = ra ∨ n t0 = rb <;>
    by_cases hb1 : n t1 = ra ∨ n t1 = rb <;>
      by_cases hb2 : n t2 = ra ∨ n t2 = rb <;>
        simp [h0, hb1, hb2]

theorem keyA (cs : ℤ) (lo : List (ℕ × ℕ)) :
    (if cs > 0 then lo else if cs < 0 then bumpKey lo (-cs).toNat else lo) =
      (if cs > 0 then lo else if cs < 0 then bumpKey lo cs.natAbs else lo) := by
  rcases lt_trichotomy cs 0 with h | h | h
  · have h1 : ¬ cs > 0 := by omega
    rw [if_neg h1, if_neg h1, if_pos h, if_pos h,
      show (-cs).toNat = cs.natAbs from by omega]
  · subst h
    norm_num
  · rw [if_pos h, if_pos h]

theorem keyB (cs m : ℤ) :
    (if -(if cs < 0 then cs - 1 else -1) > m then -(if cs < 0 then cs - 1 else -1)
      else m) =
      (if (((if cs < 0 then cs - 1 else -1).natAbs : ℤ)) > m then
        (((if cs < 0 then cs - 1 else -1).natAbs : ℤ)) else m) := by
  have hneg : (if cs < 0 then cs - 1 else -1) < 0 := by
    split <;> omega
  generalize hg : (if cs < 0 then cs - 1 else -1) = cs' at hneg ⊢
  rw [show ((cs'.natAbs : ℤ)) = -cs' from by omega]

theorem keyC (cs : ℤ) (lo : List (ℕ × ℕ)) :
    (if cs < 0 then bumpKey lo (-cs).toNat else lo) =
      (if cs < 0 then bumpKey lo cs.natAbs else lo) := by
  rcases lt_or_le cs 0 with h | h
  · rw [if_pos h, if_pos h, show (-cs).toNat = cs.natAbs from by omega]
  · have h1 : ¬ cs < 0 := by omega
    rw [if_neg h1, if_neg h1]

theorem boolCount (b : Bool) : ((if b then (1 : ℕ) else 0) == 1) = b := by
  cases b <;> rfl

theorem workerStep_eq (form : Formula) (lookback offset : ℕ) (t0 t1 t2 : Fin 5)
    (draws : List DrawData) (s : AState) (i : ℕ)
    (h1 : lookback ≤ i) (h2 : i < draws.length) :
    workerStep [t0, t1, t2] (workerRefA form lookback offset draws.length draws)
        (workerRefB form lookback offset draws.length draws) draws s i =
      mainStep (mkConfig form [t0, t1, t2] offset lookback) draws s i := by
  unfold workerStep mainStep isWinAt matchCountAt
  simp only [mkConfig_targetIndices]
  rw [workerRefA_eq form lookback offset [t0, t1, t2] draws i h1 h2,
    workerRefB_eq form lookback offset [t0, t1, t2] draws i h1 h2,
    workerMatches_eq, keyA s.currentStreak s.lossCounts,
    keyB s.currentStreak s.maxLoseStreak]

theorem workerAnalyze_eq (form : Formula) (lookback offset : ℕ)
    (t0 t1 t2 : Fin 5) (draws : List DrawData) :
    workerAnalyze form lookback offset [t0, t1, t2] draws =
      analyzeStrategy (mkConfig form [t0, t1, t2] offset lookback) draws := by
  have hstate : (evalIndices lookback draws.length).foldl
      (workerStep [t0, t1, t2]
        (workerRefA form lookback offset draws.length draws)
        (workerRefB form lookback offset draws.length draws) draws) initAState =
      analyzeLoop (mkConfig form [t0, t1, t2] offset lookback) draws := by
    unfold analyzeLoop
    simp only [mkConfig_lookback]
    refine foldl_congr_mem _ (fun s i hi => ?_) initAState
    unfold evalIndices at hi
    have hb := List.mem_range'_1.mp hi
    exact workerStep_eq form lookback offset t0 t1 t2 draws s i (by omega) (by omega)
  have hfun : (fun j =>
      workerWinHistN form lookback offset [t0, t1, t2] draws j == 1) =
      winHistB (mkConfig form [t0, t1, t2] offset lookback) draws := by
    funext j
    unfold workerWinHistN winHistB workerIsWinAt isWinAt matchCountAt
    simp only [mkConfig_lookback, mkConfig_targetIndices]
    by_cases h : lookback ≤ j ∧ j < draws.length
    · rw [if_pos h, if_pos h,
        workerRefA_eq form lookback offset [t0, t1, t2] draws j h.1 h.2,
        workerRefB_eq form lookback offset [t0, t1, t2] draws j h.1 h.2,
        workerMatches_eq]
      exact boolCount _
    · rw [if_neg h, if_neg h]
      rfl
  have hov : OVERHEAT_THRESHOLD = (8 : ℤ) := rfl
  simp only [workerAnalyze, analyzeStrategy, mkConfig_lookback]
  rw [hstate, hfun,
    keyC (analyzeLoop (mkConfig form [t0, t1, t2] offset lookback) draws).currentStreak
      (analyzeLoop (mkConfig form [t0, t1, t2] offset lookback) draws).lossCounts,
    hov]

/-- Concrete sample inputs for witnesses. -/
def sampleFormula : Formula := ⟨FormulaType.ONE_POS, [0], [], ['万']⟩

/-- A concrete enumerated-shape config (identity formula on position 0,
targets `{0,1,2}`, offset 0, lookback 1). -/
def sampleConfig : StrategyConfig := mkConfig sampleFormula [0, 1, 2] 0 1

/-- Draw `2024001` with numbers `[1,2,3,4,5]` (the spec's concrete scenario). -/
def sampleDraw1 : DrawData :=
  ⟨['2', '0', '2', '4', '0', '0', '1'], [],
    fun k => ([1, 2, 3, 4, 5] : List ℤ).getD k.val 0⟩

/-- Draw `2024002` with numbers `[6,2,3,4,5]`. -/
def sampleDraw2 : DrawData :=
  ⟨['2', '0', '2', '4', '0', '0', '2'], [],
    fun k => ([6, 2, 3, 4, 5] : List ℤ).getD k.val 0⟩

/-- The spec's two-draw concrete scenario. -/
def sampleDraws : List DrawData := [sampleDraw1, sampleDraw2]

/-! ### C2: the strict single-match win rule -/

/-- After the main loop, `winDraws` counts exactly the evaluated indices
whose match count is exactly one. -/
theorem analyzeLoop_winDraws_filter (c : StrategyConfig) (d : List DrawData) :
    (analyzeLoop c d).winDraws =
      ((evalIndices c.lookback d.length).filter
        (fun j => isWinAt c d j)).length := by
  have h := foldl_inv (mainStep c d)
    (fun pre s => s.winDraws = (pre.filter (fun j => isWinAt c d j)).length)
    (fun pre s i hp => by
      have hp' : s.winDraws = (pre.filter (fun j => isWinAt c d j)).length := hp
      show (mainStep c d s i).winDraws =
        ((pre ++ [i]).filter (fun j => isWinAt c d j)).length
      rw [mainStep_winDraws, hp', List.filter_append]
      cases hw : isWinAt c d i <;> simp [hw])
    (evalIndices c.lookback d.length) [] initAState (by simp [initAState])
  simpa [analyzeLoop, initAState] using h

theorem generateHistory_length (c : StrategyConfig) (d : List DrawData) :
    (generateHistory c d).length = d.length - c.lookback := by
  rw [generateHistory_eq, historyOf_length]
  simp

/-- C2: a period is classified a win iff exactly one of the target positions
of draw `i` equals `refA[i]` or `refB[i]`; a match count of 2 is a loss; and
`winDraws` counts exactly the periods with match count 1. -/
theorem claim_C2_strict_single_match (config : StrategyConfig)
    (draws : List DrawData) (i : ℕ) (h1 : config.lookback ≤ i)
    (h2 : i < draws.length) :
    (((generateHistory config draws).getD (i - config.lookback)
          ⟨[], false, 0, 0⟩).isWin = true ↔
        matchCountAt config draws i = 1) ∧
      (matchCountAt config draws i = 2 →
        ((generateHistory config draws).getD (i - config.lookback)
          ⟨[], false, 0, 0⟩).isWin = false) ∧
      (analyzeStrategy config draws).winDraws =
        ((evalIndices config.lookback draws.length).filter
          (fun j => matchCountAt config draws j == 1)).length := by
  have hALL : (generateHistory config draws).map (fun p => p.isWin) =
      (evalIndices config.lookback draws.length).map
        (fun j => isWinAt config draws j) := by
    rw [generateHistory_eq]
    exact historyOf_map_isWin config draws _ 0
  have hk3 : i - config.lookback <
      (evalIndices config.lookback draws.length).length := by
    simp only [evalIndices_length]
    omega
  have hwin : ((generateHistory config draws).getD (i - config.lookback)
      ⟨[], false, 0, 0⟩).isWin = isWinAt config draws i := by
    have hgd : ((generateHistory config draws).getD (i - config.lookback)
        ⟨[], false, 0, 0⟩).isWin =
        ((generateHistory config draws).map (fun p => p.isWin)).getD
          (i - config.lookback) false := by
      simp only [List.getD_eq_getElem?_getD, List.getElem?_map]
      cases h9 : (generateHistory config draws)[i - config.lookback]? <;> simp
    rw [hgd, hALL, List.getD_eq_getElem?_getD,
      List.getElem?_eq_getElem (by simpa using hk3), Option.getD_some,
      List.getElem_map]
    show isWinAt config draws
      ((evalIndices config.lookback draws.length).get ⟨i - config.lookback, hk3⟩) = _
    congr 1
    unfold evalIndices
    rw [List.get_range']
    omega
  refine ⟨?_, ?_, ?_⟩
  · rw [hwin]
    unfold isWinAt
    simp
  · intro hm
    rw [hwin]
    unfold isWinAt
    simp [hm]
  · rw [analyzeStrategy_winDraws, analyzeLoop_winDraws_filter]
    rfl

/-- Witness for C2 at the spec's concrete two-draw scenario, `i = 1`. -/
theorem claim_C2_witness :
    sampleConfig.lookback ≤ 1 ∧ 1 < sampleDraws.length ∧
      ((((generateHistory sampleConfig sampleDraws).getD (1 - sampleConfig.lookback)
            ⟨[], false, 0, 0⟩).isWin = true ↔
          matchCountAt sampleConfig sampleDraws 1 = 1) ∧
        (matchCountAt sampleConfig sampleDraws 1 = 2 →
          ((generateHistory sampleConfig sampleDraws).getD (1 - sampleConfig.lookback)
            ⟨[], false, 0, 0⟩).isWin = false) ∧
        (analyzeStrategy sampleConfig sampleDraws).winDraws =
          ((evalIndices sampleConfig.lookback sampleDraws.length).filter
            (fun j => matchCountAt sampleConfig sampleDraws j == 1)).length) :=
  ⟨by decide, by decide,
    claim_C2_strict_single_match sampleConfig sampleDraws 1 (by decide) (by decide)⟩

/-- C1: for every config and draw sequence, the evaluator's
`totalProfit` equals `winDraws * WIN_PROFIT + (totalDraws - winDraws) * LOSE_COST`
with `WIN_PROFIT = 606` and `LOSE_COST = -384`: every evaluated period
contributes exactly one of the two fixed amounts. -/
theorem claim_C1_profit_accounting (config : StrategyConfig)
    (draws : List DrawData) :
    (analyzeStrategy config draws).totalProfit =
        ((analyzeStrategy config draws).winDraws : ℤ) * WIN_PROFIT +
          (((analyzeStrategy config draws).totalDraws : ℤ) -
            ((analyzeStrategy config draws).winDraws : ℤ)) * LOSE_COST ∧
      WIN_PROFIT = 606 ∧ LOSE_COST = -384 := by
  refine ⟨?_, rfl, rfl⟩
  obtain ⟨h1, _⟩ := analyzeLoop_profit_inv config draws
  rw [evalIndices_length] at h1
  rw [analyzeStrategy_totalProfit, analyzeStrategy_winDraws,
    analyzeStrategy_totalDraws]
  exact h1

/-- C7: with draws no longer than the lookback (`N - lookback ≤ 0`), the
evaluator returns all-zero counts, `winRate = 0`, zero profit and empty
streak/annual/survival data instead of failing or dividing by zero. -/
theorem claim_C7_short_input_degrades (config : StrategyConfig)
    (draws : List DrawData) (h : draws.length ≤ config.lookback) :
    (analyzeStrategy config draws).totalDraws = 0 ∧
      (analyzeStrategy config draws).winDraws = 0 ∧
      (analyzeStrategy config draws).winRate = 0 ∧
      (analyzeStrategy config draws).totalProfit = 0 ∧
      (analyzeStrategy config draws).streakCounts = ⟨[], []⟩ ∧
      (analyzeStrategy config draws).annualStats = [] ∧
      (analyzeStrategy config draws).survivalStats = ⟨0, [], 0⟩ := by
  have h0 : draws.length - config.lookback = 0 := Nat.sub_eq_zero_of_le h
  have he : evalIndices config.lookback draws.length = [] := by
    simp [evalIndices, h0]
  have hl : analyzeLoop config draws = initAState := by
    simp [analyzeLoop, he]
  simp [analyzeStrategy, hl, he, h0, survivalLoop, initAState, sortAnnualRecs]

/-- Witness for C7 at a concrete empty input. -/
theorem claim_C7_witness :
    ([] : List DrawData).length ≤ sampleConfig.lookback ∧
      ((analyzeStrategy sampleConfig []).totalDraws = 0 ∧
        (analyzeStrategy sampleConfig []).winDraws = 0 ∧
        (analyzeStrategy sampleConfig []).winRate = 0 ∧
        (analyzeStrategy sampleConfig []).totalProfit = 0 ∧
        (analyzeStrategy sampleConfig []).streakCounts = ⟨[], []⟩ ∧
        (analyzeStrategy sampleConfig []).annualStats = [] ∧
        (analyzeStrategy sampleConfig []).survivalStats = ⟨0, [], 0⟩) :=
  ⟨by decide, claim_C7_short_input_degrades sampleConfig [] (by decide)⟩

/-! ### C4: the reference pair derivation -/

/-- Left-to-right (no precedence) evaluation of a formula's arithmetic
expression over the draw's numbers, as the spec describes it: start from the
first input position's digit and apply each operator against the next
position's digit in turn. -/
def specLeftEval (numbers : Fin 5 → ℤ) (inputs : List (Fin 5)) (ops : List Op) : ℤ :=
  match inputs with
  | [] => 0
  | x :: rest =>
      (ops.zip rest).foldl (fun acc p => applyOp p.1 acc (numbers p.2)) (numbers x)

/-- Number of input positions of each formula degree. -/
def arity : FormulaType → ℕ
  | FormulaType.ONE_POS => 1
  | FormulaType.TWO_POS => 2
  | FormulaType.THREE_POS => 3
  | FormulaType.FOUR_POS => 4
  | FormulaType.FIVE_POS => 5

/-- Well-formedness of a config per the spec's data model: the input list has
the degree's size and there is one operator less. -/
def wfConfig (c : StrategyConfig) : Prop :=
  c.inputIndices.length = arity c.type ∧
    c.operators.length = arity c.type - 1

instance (c : StrategyConfig) : Decidable (wfConfig c) := by
  unfold wfConfig
  infer_instance

theorem length_succ_split {α : Type _} {l : List α} {n : ℕ}
    (h : l.length = n + 1) : ∃ a t, l = a :: t ∧ t.length = n := by
  cases l with
  | nil => simp at h
  | cons a t => exact ⟨a, t, rfl, by simpa using h⟩

theorem length_zero_eq {α : Type _} {l : List α} (h : l.length = 0) : l = [] := by
  cases l with
  | nil => rfl
  | cons a t => simp at h

/-- The per-branch arithmetic of `getReferenceBase` agrees with the spec's
left-to-right evaluation on well-formed (degree-matching) inputs. -/
theorem formulaSum_eq_specLeftEval (n : Fin 5 → ℤ) (t : FormulaType)
    (inputs : List (Fin 5)) (ops : List Op) (hi : inputs.length = arity t)
    (ho : ops.length = arity t - 1) :
    formulaSum n t inputs ops = specLeftEval n inputs ops := by
  cases t
  all_goals simp only [arity] at hi ho
  case ONE_POS =>
    obtain ⟨a, r, rfl, hr⟩ := length_succ_split hi
    have hr' : r = [] := length_zero_eq hr
    have ho' : ops = [] := length_zero_eq (by omega)
    subst hr' ho'
    rfl
  case TWO_POS =>
    obtain ⟨a, r, rfl, hr⟩ := length_succ_split hi
    obtain ⟨b, r2, rfl, hr2⟩ := length_succ_split hr
    have ho1 : ops.length = 0 + 1 := by omega
    obtain ⟨o1, s, rfl, hs⟩ := length_succ_split ho1
    have hr2' : r2 = [] := length_zero_eq hr2
    have hs' : s = [] := length_zero_eq hs
    subst hr2' hs'
    rfl
  case THREE_POS =>
    obtain ⟨a, r, rfl, hr⟩ := length_succ_split hi
    obtain ⟨b, r2, rfl, hr2⟩ := length_succ_split hr
    obtain ⟨c, r3, rfl, hr3⟩ := length_succ_split hr2
    have ho1 : ops.length = 1 + 1 := by omega
    obtain ⟨o1, s, rfl, hs⟩ := length_succ_split ho1
    obtain ⟨o2, s2, rfl, hs2⟩ := length_succ_split hs
    have hr3' : r3 = [] := length_zero_eq hr3
    have hs2' : s2 = [] := length_zero_eq hs2
    subst hr3' hs2'
    rfl
  case FOUR_POS =>
    obtain ⟨a, r, rfl, hr⟩ := length_succ_split hi
    obtain ⟨b, r2, rfl, hr2⟩ := length_succ_split hr
    obtain ⟨c, r3, rfl, hr3⟩ := length_succ_split hr2
    obtain ⟨e, r4, rfl, hr4⟩ := length_succ_split hr3
    have ho1 : ops.length = 2 + 1 := by omega
    obtain ⟨o1, s, rfl, hs⟩ := length_succ_split ho1
    obtain ⟨o2, s2, rfl, hs2⟩ := length_succ_split hs
    obtain ⟨o3, s3, rfl, hs3⟩ := length_succ_split hs2
    have hr4' : r4 = [] := length_zero_eq hr4
    have hs3' : s3 = [] := length_zero_eq hs3
    subst hr4' hs3'
    rfl
  case FIVE_POS =>
    obtain ⟨a, r, rfl, hr⟩ := length_succ_split hi
    obtain ⟨b, r2, rfl, hr2⟩ := length_succ_split hr
    obtain ⟨c, r3, rfl, hr3⟩ := length_succ_split hr2
    obtain ⟨e, r4, rfl, hr4⟩ := length_succ_split hr3
    obtain ⟨f, r5, rfl, hr5⟩ := length_succ_split hr4
    have ho1 : ops.length = 3 + 1 := by omega
    obtain ⟨o1, s, rfl, hs⟩ := length_succ_split ho1
    obtain ⟨o2, s2, rfl, hs2⟩ := length_succ_split hs
    obtain ⟨o3, s3, rfl, hs3⟩ := length_succ_split hs2
    obtain ⟨o4, s4, rfl, hs4⟩ := length_succ_split hs3
    have hr5' : r5 = [] := length_zero_eq hr5
    have hs4' : s4 = [] := length_zero_eq hs4
    subst hr5' hs4'
    rfl

/-- C4: for every well-formed config and draw index, the reference digit
`refA[i]` used by the evaluator is `(base + offset) mod 10` where the base
digit is the absolute value of the formula's left-to-right arithmetic result
over the numbers of draw `i - lookback`, reduced modulo 10; `refB[i]` is
`(refA[i] + 5) mod 10`, and the two references always differ by exactly 5
modulo 10. -/
theorem claim_C4_reference_pair (config : StrategyConfig)
    (draws : List DrawData) (i : ℕ) (hwf : wfConfig config) :
    periodRefA config draws i =
        (|specLeftEval ((draws.getD (i - config.lookback) defaultDraw).numbers)
            config.inputIndices config.operators| % 10 + (config.offset : ℤ))
          % 10 ∧
      periodRefB config draws i = (periodRefA config draws i + 5) % 10 ∧
      (periodRefB config draws i - periodRefA config draws i) % 10 = 5 := by
  have hsum : formulaSum ((draws.getD (i - config.lookback) defaultDraw).numbers)
      config.type config.inputIndices config.operators =
      specLeftEval ((draws.getD (i - config.lookback) defaultDraw).numbers)
        config.inputIndices config.operators :=
    formulaSum_eq_specLeftEval _ _ _ _ hwf.1 hwf.2
  have habs : (0 : ℤ) ≤
      |specLeftEval ((draws.getD (i - config.lookback) defaultDraw).numbers)
        config.inputIndices config.operators| := abs_nonneg _
  refine ⟨?_, rfl, ?_⟩
  · unfold periodRefA getReferenceBase
    rw [hsum]
    generalize |specLeftEval ((draws.getD (i - config.lookback) defaultDraw).numbers)
      config.inputIndices config.operators| = a at habs ⊢
    omega
  · unfold periodRefB
    generalize periodRefA config draws i = a
    omega

/-- Witness for C4 at the concrete sample config and scenario. -/
theorem claim_C4_witness :
    wfConfig sampleConfig ∧
      (periodRefA sampleConfig sampleDraws 1 =
          (|specLeftEval ((sampleDraws.getD (1 - sampleConfig.lookback)
              defaultDraw).numbers) sampleConfig.inputIndices
              sampleConfig.operators| % 10 + (sampleConfig.offset : ℤ)) % 10 ∧
        periodRefB sampleConfig sampleDraws 1 =
          (periodRefA sampleConfig sampleDraws 1 + 5) % 10 ∧
        (periodRefB sampleConfig sampleDraws 1 -
          periodRefA sampleConfig sampleDraws 1) % 10 = 5) :=
  ⟨by decide, claim_C4_reference_pair sampleConfig sampleDraws 1 (by decide)⟩

/-! ### C6: overheat breaks and survival simulation -/

/-- The outcome sequence of the evaluated periods. -/
def outcomesOf (c : StrategyConfig) (d : List DrawData) : List Bool :=
  (evalIndices c.lookback d.length).map (fun i => isWinAt c d i)

/-- Length of the maximal run of consecutive wins at the end of a prefix of
the outcome sequence. -/
def trueSuffixLen (l : List Bool) : ℕ := (l.reverse.takeWhile (fun b => b)).length

/-- Specification of an overheat break: position `k` is a loss immediately
preceded by a win streak of length at least 9. -/
def breakCond (o : List Bool) (k : ℕ) : Bool :=
  !(o.getD k false) && decide (9 ≤ trueSuffixLen (o.take k))

/-- All overheat-break positions, in increasing order. -/
def specBreaks (o : List Bool) : List ℕ :=
  (List.range o.length).filter (breakCond o)

/-- Forward simulation from a list of outcomes: accumulate `WIN_PROFIT` per
win and `LOSE_COST` per loss into a fresh running total, and count periods
until the total reaches `≤ -1000` or the outcomes are exhausted. -/
def simLen : List Bool → ℤ → ℕ
  | [], _ => 0
  | b :: rest, pnl =>
      let p := pnl + (if b then WIN_PROFIT else LOSE_COST)
      if p ≤ -1000 then 1 else 1 + simLen rest p

/-- The value of the scan's `tempStreak` after a given prefix of outcomes. -/
def tempOf (p : List Bool) : ℤ :=
  if p = [] then 0
  else if 0 < trueSuffixLen p then (trueSuffixLen p : ℤ) else -1

theorem trueSuffixLen_snoc_true (p : List Bool) :
    trueSuffixLen (p ++ [true]) = trueSuffixLen p + 1 := by
  unfold trueSuffixLen
  rw [List.reverse_append]
  simp [List.takeWhile_cons]

theorem trueSuffixLen_snoc_false (p : List Bool) :
    trueSuffixLen (p ++ [false]) = 0 := by
  unfold trueSuffixLen
  rw [List.reverse_append]
  simp [List.takeWhile_cons]

theorem tempOf_snoc_true (p : List Bool) :
    tempOf (p ++ [true]) = (if tempOf p < 0 then 0 else tempOf p) + 1 := by
  have hne : ¬ (p ++ [true] = []) := by simp
  unfold tempOf
  rw [trueSuffixLen_snoc_true]
  rw [if_neg hne, if_pos (Nat.succ_pos _)]
  rcases eq_or_ne p [] with h | h
  · subst h
    simp [trueSuffixLen]
  · rw [if_neg h]
    rcases Nat.eq_zero_or_pos (trueSuffixLen p) with h0 | h0
    · rw [h0]
      norm_num
    · have hc : ¬ ((trueSuffixLen p : ℤ) < 0) := by omega
      rw [if_pos h0, if_neg hc]
      push_cast
      ring

theorem tempOf_snoc_false (p : List Bool) : tempOf (p ++ [false]) = -1 := by
  have hne : ¬ (p ++ [false] = []) := by simp
  unfold tempOf
  rw [trueSuffixLen_snoc_false]
  rw [if_neg hne, if_neg (by omega)]

theorem tempOf_ge9 (p : List Bool) : 9 ≤ tempOf p ↔ 9 ≤ trueSuffixLen p := by
  unfold tempOf
  rcases eq_or_ne p [] with h | h
  · subst h
    simp [trueSuffixLen]
  · simp only [h, if_false]
    rcases Nat.eq_zero_or_pos (trueSuffixLen p) with h0 | h0
    · simp [h0]
    · simp only [h0, if_true]
      constructor
      · intro hh
        exact_mod_cast hh
      · intro hh
        exact_mod_cast hh

theorem range'_take (s m k : ℕ) (h : k ≤ m) :
    (List.range' s m).take k = List.range' s k := by
  have happ : List.range' s k ++ List.range' (s + k) (m - k) = List.range' s m := by
    rw [List.range'_append_1]
    congr 1
    omega
  rw [← happ, List.take_left' (by simp)]

theorem range'_drop (s m k : ℕ) (h : k ≤ m) :
    (List.range' s m).drop k = List.range' (s + k) (m - k) := by
  have happ : List.range' s k ++ List.range' (s + k) (m - k) = List.range' s m := by
    rw [List.range'_append_1]
    congr 1
    omega
  rw [← happ, List.drop_left' (by simp)]

theorem outcomesOf_getD (c : StrategyConfig) (d : List DrawData) (m : ℕ)
    (hm : m < d.length - c.lookback) :
    (outcomesOf c d).getD m false = isWinAt c d (c.lookback + m) := by
  unfold outcomesOf
  have hm' : m < (evalIndices c.lookback d.length).length := by
    simp only [evalIndices_length]
    omega
  rw [List.getD_eq_getElem?_getD, List.getElem?_map,
    List.getElem?_eq_getElem hm', Option.map_some', Option.getD_some]
  congr 1
  unfold evalIndices
  rw [List.getElem_range']
  omega

theorem outcomesOf_take (c : StrategyConfig) (d : List DrawData) (m : ℕ)
    (hm : m ≤ d.length - c.lookback) :
    (outcomesOf c d).take m =
      (List.range' c.lookback m).map (fun i => isWinAt c d i) := by
  unfold outcomesOf evalIndices
  rw [← List.map_take, range'_take _ _ _ hm]

theorem outcomesOf_drop (c : StrategyConfig) (d : List DrawData) (m : ℕ)
    (hm : m ≤ d.length - c.lookback) :
    (outcomesOf c d).drop m =
      (List.range' (c.lookback + m) (d.length - c.lookback - m)).map
        (fun i => isWinAt c d i) := by
  unfold outcomesOf evalIndices
  rw [← List.map_drop, range'_drop _ _ _ hm]

theorem winHistB_eq (c : StrategyConfig) (d : List DrawData) (j : ℕ)
    (h1 : c.lookback ≤ j) (h2 : j < d.length) :
    winHistB c d j = isWinAt c d j := by
  simp [winHistB, h1, h2]

/-- The survival inner simulation loop agrees with the list-level simulation
over the remaining outcomes. -/
theorem simFrom_eq (c : StrategyConfig) (d : List DrawData) :
    ∀ (t j : ℕ) (pnl : ℤ), d.length - j = t → c.lookback ≤ j →
      simFrom (winHistB c d) d.length j pnl =
        simLen ((List.range' j (d.length - j)).map (fun i => isWinAt c d i)) pnl
  | 0, j, pnl, ht, _ => by
    have hj : ¬ j < d.length := by omega
    unfold simFrom
    rw [dif_neg hj]
    rw [show d.length - j = 0 from ht]
    rfl
  | t + 1, j, pnl, ht, hL => by
    have hj : j < d.length := by omega
    unfold simFrom
    rw [dif_pos hj]
    rw [show d.length - j = t + 1 from ht, List.range'_succ, List.map_cons]
    rw [show simLen (isWinAt c d j ::
        (List.range' (j + 1) t).map (fun i => isWinAt c d i)) pnl =
      (if pnl + (if isWinAt c d j then WIN_PROFIT else LOSE_COST) ≤ -1000 then 1
       else 1 + simLen ((List.range' (j + 1) t).map (fun i => isWinAt c d i))
         (pnl + (if isWinAt c d j then WIN_PROFIT else LOSE_COST))) from rfl]
    rw [winHistB_eq c d j hL hj]
    have hrec := simFrom_eq c d t (j + 1)
      (pnl + (if isWinAt c d j then WIN_PROFIT else LOSE_COST))
      (by omega) (by omega)
    rw [show d.length - (j + 1) = t from by omega] at hrec
    rcases le_or_lt (pnl + (if isWinAt c d j then WIN_PROFIT else LOSE_COST))
      (-1000) with hc | hc
    · rw [if_pos hc, if_pos hc]
    · rw [if_neg (not_le.mpr hc), if_neg (not_le.mpr hc), hrec]

/-- The survival scan's state after `m` processed periods: the recorded
periods are exactly the simulations at the overheat breaks seen so far, and
`tempStreak` reflects the trailing win-run of the processed prefix. -/
theorem survival_fold_spec (c : StrategyConfig) (d : List DrawData) :
    ∀ m, m ≤ d.length - c.lookback →
      (List.range' c.lookback m).foldl
          (survivalStep (winHistB c d) d.length) ([], 0) =
        (((List.range m).filter (breakCond (outcomesOf c d))).map
            (fun k => simLen ((outcomesOf c d).drop (k + 1)) 0),
          tempOf ((outcomesOf c d).take m))
  | 0, _ => by simp [tempOf]
  | m + 1, hm => by
    have hmle : m ≤ d.length - c.lookback := by omega
    have hmlt : m < d.length - c.lookback := by omega
    rw [List.range'_1_concat, List.foldl_append,
      survival_fold_spec c d m hmle]
    simp only [List.foldl_cons, List.foldl_nil]
    have hwin : winHistB c d (c.lookback + m) = (outcomesOf c d).getD m false := by
      rw [winHistB_eq c d _ (by omega) (by omega), outcomesOf_getD c d m hmlt]
    have htake : (outcomesOf c d).take (m + 1) =
        (outcomesOf c d).take m ++ [(outcomesOf c d).getD m false] := by
      have hlen : m < (outcomesOf c d).length := by
        simp only [outcomesOf, List.length_map, evalIndices_length]
        omega
      rw [List.take_succ, List.getElem?_eq_getElem hlen]
      simp [List.getD_eq_getElem?_getD, List.getElem?_eq_getElem hlen]
    have hrange : (List.range (m + 1)).filter (breakCond (outcomesOf c d)) =
        (List.range m).filter (breakCond (outcomesOf c d)) ++
          (if breakCond (outcomesOf c d) m then [m] else []) := by
      rw [List.range_succ, List.filter_append]
      congr 1
      cases hcb : breakCond (outcomesOf c d) m <;> simp [List.filter, hcb]
    unfold survivalStep
    rw [hwin]
    cases hb : (outcomesOf c d).getD m false with
    | true =>
      have hfalse : breakCond (outcomesOf c d) m = false := by
        unfold breakCond
        rw [hb]
        simp
      rw [hrange, htake, hb, tempOf_snoc_true, hfalse]
      simp
    | false =>
      have hcond : breakCond (outcomesOf c d) m =
          decide (9 ≤ trueSuffixLen ((outcomesOf c d).take m)) := by
        unfold breakCond
        rw [hb]
        simp
      have hsim : simFrom (winHistB c d) d.length (c.lookback + m + 1) 0 =
          simLen ((outcomesOf c d).drop (m + 1)) 0 := by
        rw [outcomesOf_drop c d (m + 1) (by omega)]
        rw [show c.lookback + (m + 1) = c.lookback + m + 1 from by omega,
          show d.length - c.lookback - (m + 1) = d.length - (c.lookback + m + 1)
            from by omega]
        exact simFrom_eq c d (d.length - (c.lookback + m + 1))
          (c.lookback + m + 1) 0 rfl (by omega)
      rw [hrange, htake, hb, tempOf_snoc_false, hcond]
      simp only [Bool.false_eq_true, if_false]
      rcases le_or_lt 9 (tempOf ((outcomesOf c d).take m)) with h9 | h9
      · have h9' : 9 ≤ trueSuffixLen ((outcomesOf c d).take m) :=
          (tempOf_ge9 _).mp h9
        rw [if_pos h9, if_pos (decide_eq_true h9'), List.map_append, hsim]
        simp
      · have h9' : ¬ 9 ≤ trueSuffixLen ((outcomesOf c d).take m) := by
          intro hcontra
          exact absurd ((tempOf_ge9 _).mpr hcontra) (not_le.mpr h9)
        rw [if_neg (not_le.mpr h9), if_neg (by simpa using h9')]
        simp

theorem analyzeStrategy_survival_periods (c : StrategyConfig) (d : List DrawData) :
    (analyzeStrategy c d).survivalStats.periods =
      (survivalLoop (winHistB c d) c.lookback d.length).1 := rfl

theorem analyzeStrategy_survival_count (c : StrategyConfig) (d : List DrawData) :
    (analyzeStrategy c d).survivalStats.count =
      (survivalLoop (winHistB c d) c.lookback d.length).1.length := rfl

theorem outcomesOf_eq_history (c : StrategyConfig) (d : List DrawData) :
    (generateHistory c d).map (fun p => p.isWin) = outcomesOf c d := by
  rw [generateHistory_eq]
  exact historyOf_map_isWin c d _ 0

/-- C6: `survivalStats.periods` has one entry per overheat break (a win
streak of length ≥ 9 immediately followed by a loss), and each entry is the
number of periods of the forward simulation that starts right after the break
and stops as soon as its fresh running total reaches ≤ -1000 or the data is
exhausted. -/
theorem claim_C6_survival (config : StrategyConfig) (draws : List DrawData) :
    (analyzeStrategy config draws).survivalStats.periods =
        (specBreaks ((generateHistory config draws).map (fun p => p.isWin))).map
          (fun k => simLen
            (((generateHistory config draws).map (fun p => p.isWin)).drop (k + 1))
            0) ∧
      (analyzeStrategy config draws).survivalStats.count =
        (specBreaks ((generateHistory config draws).map (fun p => p.isWin))).length := by
  have ho := outcomesOf_eq_history config draws
  have hlen : (outcomesOf config draws).length =
      draws.length - config.lookback := by
    simp [outcomesOf]
  have hfold := survival_fold_spec config draws
    (draws.length - config.lookback) le_rfl
  have hmain : (survivalLoop (winHistB config draws) config.lookback
      draws.length).1 =
      (specBreaks (outcomesOf config draws)).map
        (fun k => simLen ((outcomesOf config draws).drop (k + 1)) 0) := by
    unfold survivalLoop evalIndices
    rw [hfold]
    unfold specBreaks
    rw [hlen]
  constructor
  · rw [analyzeStrategy_survival_periods, hmain, ho]
  · rw [analyzeStrategy_survival_count, hmain, ho]
    simp

/-! ### C5: streak histograms count maximal runs -/

/-- Run-length encoding of the outcome sequence: the list of maximal runs of
consecutive equal outcomes, in order, with their lengths. -/
def rle : List Bool → List (Bool × ℕ)
  | [] => []
  | a :: rest =>
      match rle rest with
      | [] => [(a, 1)]
      | (b, n) :: tail =>
          if a = b then (a, n + 1) :: tail else (a, 1) :: (b, n) :: tail

/-- Sanity: the runs reconstruct the original sequence. -/
theorem rle_flatten : ∀ (o : List Bool),
    (rle o).flatMap (fun p => List.replicate p.2 p.1) = o
  | [] => rfl
  | a :: rest => by
    have ih := rle_flatten rest
    show (match rle rest with
      | [] => [(a, 1)]
      | (b, n) :: tail =>
          if a = b then (a, n + 1) :: tail else (a, 1) :: (b, n) :: tail).flatMap
        (fun p => List.replicate p.2 p.1) = a :: rest
    cases hr : rle rest with
    | nil =>
      rw [hr] at ih
      simp at ih
      simp [ih.symm]
    | cons p tail =>
      obtain ⟨b, n⟩ := p
      rw [hr] at ih
      dsimp only
      by_cases hab : a = b
      · subst hab
        rw [if_pos rfl]
        simp only [List.flatMap_cons] at ih ⊢
        rw [List.replicate_succ, List.cons_append, ih]
      · rw [if_neg hab]
        simp only [List.flatMap_cons] at ih ⊢
        simp [ih]

/-- The total number of occurrences recorded in a histogram. -/
def sumCounts (m : List (ℕ × ℕ)) : ℕ := (m.map (fun p => p.2)).sum

theorem lookupD_bump : ∀ (m : List (ℕ × ℕ)) (k L : ℕ),
    lookupD (bumpKey m k) L = lookupD m L + (if L = k then 1 else 0)
  | [], k, L => by
    by_cases h : L = k
    · subst h
      simp [bumpKey, lookupD]
    · have h2 : ¬ k = L := fun hh => h hh.symm
      simp [bumpKey, lookupD, h, h2]
  | (a, c) :: rest, k, L => by
    unfold bumpKey
    by_cases hak : a = k
    · subst hak
      rw [if_pos rfl]
      unfold lookupD
      by_cases hLa : a = L
      · rw [if_pos hLa, if_pos hLa, if_pos hLa.symm]
      · rw [if_neg hLa, if_neg hLa, if_neg (fun h => hLa h.symm)]
        omega
    · rw [if_neg hak]
      unfold lookupD
      by_cases hLa : a = L
      · rw [if_pos hLa, if_pos hLa,
          if_neg (show ¬ L = k from fun h => hak (hLa.trans h))]
        omega
      · rw [if_neg hLa, if_neg hLa, lookupD_bump rest k L]

theorem sumCounts_bump : ∀ (m : List (ℕ × ℕ)) (k : ℕ),
    sumCounts (bumpKey m k) = sumCounts m + 1
  | [], k => by simp [bumpKey, sumCounts]
  | (a, c) :: rest, k => by
    unfold bumpKey
    by_cases hak : a = k
    · rw [if_pos hak]
      unfold sumCounts
      simp only [List.map_cons, List.sum_cons]
      omega
    · rw [if_neg hak]
      show sumCounts ((a, c) :: bumpKey rest k) = sumCounts ((a, c) :: rest) + 1
      have hrec := sumCounts_bump rest k
      unfold sumCounts at hrec ⊢
      simp only [List.map_cons, List.sum_cons]
      omega

/-- The open streak of the analysis state, as the run of outcomes it stands
for. -/
def runSeq (cs : ℤ) : List Bool := List.replicate cs.natAbs (decide (0 < cs))

theorem rle_cons_head (x : Bool) (r : List Bool) :
    ∃ k t, rle (x :: r) = (x, k) :: t ∧ 1 ≤ k := by
  show ∃ k t, (match rle r with
    | [] => [(x, 1)]
    | (b, n) :: tail =>
        if x = b then (x, n + 1) :: tail else (x, 1) :: (b, n) :: tail) =
      (x, k) :: t ∧ 1 ≤ k
  cases hr : rle r with
  | nil => exact ⟨1, [], rfl, le_refl 1⟩
  | cons p tail =>
    obtain ⟨b, n⟩ := p
    by_cases hxb : x = b
    · subst hxb
      exact ⟨n + 1, tail, by simp, by omega⟩
    · exact ⟨1, (b, n) :: tail, by simp [hxb], le_refl 1⟩

theorem rle_replicate_pos : ∀ (n : ℕ), 0 < n → ∀ (σ : Bool),
    rle (List.replicate n σ) = [(σ, n)]
  | 1, _, σ => rfl
  | n + 2, _, σ => by
    rw [List.replicate_succ, show rle (σ :: List.replicate (n + 1) σ) =
      (match rle (List.replicate (n + 1) σ) with
        | [] => [(σ, 1)]
        | (b, m) :: tail =>
            if σ = b then (σ, m + 1) :: tail else (σ, 1) :: (b, m) :: tail)
      from rfl]
    rw [rle_replicate_pos (n + 1) (by omega) σ]
    simp

theorem rle_replicate_ne : ∀ (n : ℕ), 0 < n → ∀ (σ b : Bool), b ≠ σ →
    ∀ (rest : List Bool),
      rle (List.replicate n σ ++ b :: rest) = (σ, n) :: rle (b :: rest)
  | 1, _, σ, b, hne, rest => by
    simp only [List.replicate_succ, List.replicate_zero, List.cons_append,
      List.nil_append]
    show (match rle (b :: rest) with
      | [] => [(σ, 1)]
      | (c, m) :: tail =>
          if σ = c then (σ, m + 1) :: tail else (σ, 1) :: (c, m) :: tail) =
      (σ, 1) :: rle (b :: rest)
    obtain ⟨k, t, hk, -⟩ := rle_cons_head b rest
    rw [hk]
    dsimp only
    rw [if_neg (show ¬ σ = b from fun h => hne h.symm)]
  | n + 2, _, σ, b, hne, rest => by
    rw [List.replicate_succ, List.cons_append]
    show (match rle (List.replicate (n + 1) σ ++ b :: rest) with
      | [] => [(σ, 1)]
      | (c, m) :: tail =>
          if σ = c then (σ, m + 1) :: tail else (σ, 1) :: (c, m) :: tail) =
      (σ, n + 2) :: rle (b :: rest)
    rw [rle_replicate_ne (n + 1) (by omega) σ b hne rest]
    simp

theorem replicate_append_same (n : ℕ) (a : Bool) (l : List Bool) :
    List.replicate n a ++ a :: l = List.replicate (n + 1) a ++ l := by
  induction n with
  | zero => simp
  | succ m ih =>
    rw [List.replicate_succ, List.cons_append, ih, ← List.cons_append,
      ← List.replicate_succ]

/-- The streak-tracking component of one analysis step, as a pure function of
the period outcome. -/
def streakStep (st : ℤ × List (ℕ × ℕ) × List (ℕ × ℕ)) (b : Bool) :
    ℤ × List (ℕ × ℕ) × List (ℕ × ℕ) :=
  if b then
    (if st.1 > 0 then st.1 + 1 else 1,
     st.2.1,
     if st.1 > 0 then st.2.2
     else if st.1 < 0 then bumpKey st.2.2 st.1.natAbs else st.2.2)
  else
    (if st.1 < 0 then st.1 - 1 else -1,
     if st.1 < 0 then st.2.1
     else if st.1 > 0 then bumpKey st.2.1 st.1.toNat else st.2.1,
     st.2.2)

/-- The end-of-pass flush of the still-open streak. -/
def flushSC (st : ℤ × List (ℕ × ℕ) × List (ℕ × ℕ)) :
    List (ℕ × ℕ) × List (ℕ × ℕ) :=
  (if st.1 > 0 then bumpKey st.2.1 st.1.toNat else st.2.1,
   if st.1 < 0 then bumpKey st.2.2 st.1.natAbs else st.2.2)

theorem mainStep_streak_proj (c : StrategyConfig) (d : List DrawData)
    (s : AState) (i : ℕ) :
    ((mainStep c d s i).currentStreak, (mainStep c d s i).winCounts,
      (mainStep c d s i).lossCounts) =
      streakStep (s.currentStreak, s.winCounts, s.lossCounts) (isWinAt c d i) := by
  unfold mainStep streakStep
  cases h : isWinAt c d i <;> simp [h]

theorem analyzeFold_streak_proj (c : StrategyConfig) (d : List DrawData) :
    ∀ (l : List ℕ) (s : AState),
      ((l.foldl (mainStep c d) s).currentStreak,
        (l.foldl (mainStep c d) s).winCounts,
        (l.foldl (mainStep c d) s).lossCounts) =
      (l.map (fun i => isWinAt c d i)).foldl streakStep
        (s.currentStreak, s.winCounts, s.lossCounts)
  | [], s => rfl
  | i :: l, s => by
    rw [List.foldl_cons, List.map_cons, List.foldl_cons,
      ← mainStep_streak_proj c d s i]
    exact analyzeFold_streak_proj c d l (mainStep c d s i)

theorem toNat_eq_natAbs_of_pos (cs : ℤ) (h : 0 < cs) : cs.toNat = cs.natAbs := by
  omega

/-- The streak fold followed by the final flush records, for every length,
exactly the maximal runs of that length of the combined sequence (open streak
followed by the remaining outcomes), on top of what the incoming histograms
already hold. -/
theorem streak_fold_spec :
    ∀ (o : List Bool) (cs : ℤ) (w lo : List (ℕ × ℕ)),
      (∀ L, lookupD (flushSC (o.foldl streakStep (cs, w, lo))).1 L =
          lookupD w L + ((rle (runSeq cs ++ o)).filter
            (fun p => p.1 == true && p.2 == L)).length) ∧
        (∀ L, lookupD (flushSC (o.foldl streakStep (cs, w, lo))).2 L =
          lookupD lo L + ((rle (runSeq cs ++ o)).filter
            (fun p => p.1 == false && p.2 == L)).length) ∧
        sumCounts (flushSC (o.foldl streakStep (cs, w, lo))).1 +
            sumCounts (flushSC (o.foldl streakStep (cs, w, lo))).2 =
          sumCounts w + sumCounts lo + (rle (runSeq cs ++ o)).length
  | [], cs, w, lo => by
    simp only [List.foldl_nil, List.append_nil]
    rcases lt_trichotomy cs 0 with hneg | hzero | hpos
    · have hn : 0 < cs.natAbs := by omega
      have hflush : flushSC (cs, w, lo) = (w, bumpKey lo cs.natAbs) := by
        unfold flushSC
        rw [if_neg (by omega), if_pos hneg]
      have hseq : runSeq cs = List.replicate cs.natAbs false := by
        unfold runSeq
        rw [decide_eq_false (by omega)]
      rw [hflush, hseq, rle_replicate_pos cs.natAbs hn false]
      refine ⟨?_, ?_, ?_⟩
      · intro L
        simp [List.filter_cons]
      · intro L
        rw [lookupD_bump]
        by_cases hL : cs.natAbs = L
        · simp [List.filter_cons, hL]
        · have hL2 : ¬ L = cs.natAbs := fun h => hL h.symm
          simp [List.filter_cons, hL, hL2]
      · rw [sumCounts_bump]
        simp
        omega
    · subst hzero
      have hflush : flushSC ((0 : ℤ), w, lo) = (w, lo) := by
        unfold flushSC
        rw [if_neg (by omega), if_neg (by omega)]
      have hseq : runSeq 0 = [] := by
        unfold runSeq
        simp
      rw [hflush, hseq]
      simp [rle, sumCounts]
    · have hn : 0 < cs.natAbs := by omega
      have hflush : flushSC (cs, w, lo) = (bumpKey w cs.toNat, lo) := by
        unfold flushSC
        rw [if_pos hpos, if_neg (by omega)]
      have hseq : runSeq cs = List.replicate cs.natAbs true := by
        unfold runSeq
        rw [decide_eq_true hpos]
      rw [hflush, hseq, rle_replicate_pos cs.natAbs hn true,
        toNat_eq_natAbs_of_pos cs hpos]
      refine ⟨?_, ?_, ?_⟩
      · intro L
        rw [lookupD_bump]
        by_cases hL : cs.natAbs = L
        · simp [List.filter_cons, hL]
        · have hL2 : ¬ L = cs.natAbs := fun h => hL h.symm
          simp [List.filter_cons, hL, hL2]
      · intro L
        simp [List.filter_cons]
      · rw [sumCounts_bump]
        simp
        omega
  | b :: rest, cs, w, lo => by
    rw [List.foldl_cons]
    cases b with
    | true =>
      rcases lt_trichotomy cs 0 with hneg | hzero | hpos
      · -- loss streak broken by a win: flush the loss run into the histogram
        have hstep : streakStep (cs, w, lo) true =
            (1, w, bumpKey lo cs.natAbs) := by
          unfold streakStep
          rw [if_pos rfl, if_neg (by omega), if_neg (by omega), if_pos hneg]
        have hseq : runSeq cs ++ true :: rest =
            List.replicate cs.natAbs false ++ true :: rest := by
          unfold runSeq
          rw [decide_eq_false (by omega)]
        have hrle : rle (runSeq cs ++ true :: rest) =
            (false, cs.natAbs) :: rle (true :: rest) := by
          rw [hseq]
          exact rle_replicate_ne cs.natAbs (by omega) false true
            (by simp) rest
        have hone : runSeq (1 : ℤ) ++ rest = true :: rest := by
          unfold runSeq
          simp
        obtain ⟨ih1, ih2, ih3⟩ := streak_fold_spec rest 1 w (bumpKey lo cs.natAbs)
        rw [hone] at ih1 ih2 ih3
        rw [hstep, hrle]
        refine ⟨?_, ?_, ?_⟩
        · intro L
          rw [ih1 L]
          simp [List.filter_cons]
        · intro L
          rw [ih2 L, lookupD_bump]
          by_cases hL : cs.natAbs = L
          · simp [List.filter_cons, hL]
            omega
          · have hL2 : ¬ L = cs.natAbs := fun h => hL h.symm
            simp [List.filter_cons, hL, hL2]
        · rw [ih3, sumCounts_bump]
          simp
          omega
      · -- no open streak: start a win streak of 1
        subst hzero
        have hstep : streakStep ((0 : ℤ), w, lo) true = (1, w, lo) := by
          unfold streakStep
          rw [if_pos rfl, if_neg (by omega), if_neg (by omega), if_neg (by omega)]
        have hseq : runSeq (0 : ℤ) ++ true :: rest = runSeq (1 : ℤ) ++ rest := by
          unfold runSeq
          simp
        obtain ⟨ih1, ih2, ih3⟩ := streak_fold_spec rest 1 w lo
        rw [hstep, hseq]
        exact ⟨ih1, ih2, ih3⟩
      · -- extend the open win streak
        have hstep : streakStep (cs, w, lo) true = (cs + 1, w, lo) := by
          unfold streakStep
          rw [if_pos rfl, if_pos hpos, if_pos hpos]
        have hseq : runSeq cs ++ true :: rest = runSeq (cs + 1) ++ rest := by
          unfold runSeq
          rw [decide_eq_true hpos, decide_eq_true (show (0 : ℤ) < cs + 1 by omega),
            show (cs + 1).natAbs = cs.natAbs + 1 from by omega,
            replicate_append_same]
        obtain ⟨ih1, ih2, ih3⟩ := streak_fold_spec rest (cs + 1) w lo
        rw [hstep, hseq]
        exact ⟨ih1, ih2, ih3⟩
    | false =>
      rcases lt_trichotomy cs 0 with hneg | hzero | hpos
      · -- extend the open loss streak
        have hstep : streakStep (cs, w, lo) false = (cs - 1, w, lo) := by
          unfold streakStep
          rw [if_neg (by simp), if_pos hneg, if_pos hneg]
        have hseq : runSeq cs ++ false :: rest = runSeq (cs - 1) ++ rest := by
          unfold runSeq
          rw [decide_eq_false (by omega), decide_eq_false (show ¬ (0 : ℤ) < cs - 1 by omega),
            show (cs - 1).natAbs = cs.natAbs + 1 from by omega,
            replicate_append_same]
        obtain ⟨ih1, ih2, ih3⟩ := streak_fold_spec rest (cs - 1) w lo
        rw [hstep, hseq]
        exact ⟨ih1, ih2, ih3⟩
      · -- no open streak: start a loss streak of 1
        subst hzero
        have hstep : streakStep ((0 : ℤ), w, lo) false = (-1, w, lo) := by
          unfold streakStep
          rw [if_neg (by simp), if_neg (by omega), if_neg (by omega), if_neg (by omega)]
        have hseq : runSeq (0 : ℤ) ++ false :: rest = runSeq (-1 : ℤ) ++ rest := by
          unfold runSeq
          simp
        obtain ⟨ih1, ih2, ih3⟩ := streak_fold_spec rest (-1) w lo
        rw [hstep, hseq]
        exact ⟨ih1, ih2, ih3⟩
      · -- win streak broken by a loss: flush the win run into the histogram
        have hstep : streakStep (cs, w, lo) false =
            (-1, bumpKey w cs.toNat, lo) := by
          unfold streakStep
          rw [if_neg (by simp), if_neg (by omega), if_neg (by omega), if_pos hpos]
        have hseq : runSeq cs ++ false :: rest =
            List.replicate cs.natAbs true ++ false :: rest := by
          unfold runSeq
          rw [decide_eq_true hpos]
        have hrle : rle (runSeq cs ++ false :: rest) =
            (true, cs.natAbs) :: rle (false :: rest) := by
          rw [hseq]
          exact rle_replicate_ne cs.natAbs (by omega) true false
            (by simp) rest
        have hone : runSeq (-1 : ℤ) ++ rest = false :: rest := by
          unfold runSeq
          simp
        obtain ⟨ih1, ih2, ih3⟩ := streak_fold_spec rest (-1) (bumpKey w cs.toNat) lo
        rw [hone] at ih1 ih2 ih3
        rw [hstep, hrle, toNat_eq_natAbs_of_pos cs hpos] at *
        refine ⟨?_, ?_, ?_⟩
        · intro L
          rw [ih1 L, lookupD_bump]
          by_cases hL : cs.natAbs = L
          · simp [List.filter_cons, hL]
            omega
          · have hL2 : ¬ L = cs.natAbs := fun h => hL h.symm
            simp [List.filter_cons, hL, hL2]
        · intro L
          rw [ih2 L]
          simp [List.filter_cons]
        · rw [ih3, sumCounts_bump]
          simp
          omega

theorem analyzeStrategy_flush_win (c : StrategyConfig) (d : List DrawData) :
    (analyzeStrategy c d).streakCounts.win =
      (flushSC ((outcomesOf c d).foldl streakStep (0, [], []))).1 := by
  have h := analyzeFold_streak_proj c d (evalIndices c.lookback d.length) initAState
  show (flushSC ((analyzeLoop c d).currentStreak, (analyzeLoop c d).winCounts,
    (analyzeLoop c d).lossCounts)).1 = _
  unfold analyzeLoop
  rw [h]
  rfl

theorem analyzeStrategy_flush_loss (c : StrategyConfig) (d : List DrawData) :
    (analyzeStrategy c d).streakCounts.loss =
      (flushSC ((outcomesOf c d).foldl streakStep (0, [], []))).2 := by
  have h := analyzeFold_streak_proj c d (evalIndices c.lookback d.length) initAState
  show (flushSC ((analyzeLoop c d).currentStreak, (analyzeLoop c d).winCounts,
    (analyzeLoop c d).lossCounts)).2 = _
  unfold analyzeLoop
  rw [h]
  rfl

/-- C5: the streak histograms (including the final flush) represent every
maximal run of consecutive equal outcomes exactly once, in the bucket keyed
by its length, and their total count equals the number of maximal runs. -/
theorem claim_C5_streak_histograms (config : StrategyConfig)
    (draws : List DrawData) :
    sumCounts (analyzeStrategy config draws).streakCounts.win +
        sumCounts (analyzeStrategy config draws).streakCounts.loss =
      (rle ((generateHistory config draws).map (fun p => p.isWin))).length ∧
      (∀ L, lookupD (analyzeStrategy config draws).streakCounts.win L =
        ((rle ((generateHistory config draws).map (fun p => p.isWin))).filter
          (fun p => p.1 == true && p.2 == L)).length) ∧
      (∀ L, lookupD (analyzeStrategy config draws).streakCounts.loss L =
        ((rle ((generateHistory config draws).map (fun p => p.isWin))).filter
          (fun p => p.1 == false && p.2 == L)).length) := by
  have hO := outcomesOf_eq_history config draws
  obtain ⟨s1, s2, s3⟩ := streak_fold_spec (outcomesOf config draws) 0 [] []
  have h0 : runSeq (0 : ℤ) ++ outcomesOf config draws = outcomesOf config draws := by
    unfold runSeq
    simp
  rw [h0] at s1 s2 s3
  refine ⟨?_, ?_, ?_⟩
  · rw [hO, analyzeStrategy_flush_win, analyzeStrategy_flush_loss, s3]
    simp [sumCounts]
  · intro L
    rw [hO, analyzeStrategy_flush_win, s1 L]
    simp [lookupD]
  · intro L
    rw [hO, analyzeStrategy_flush_loss, s2 L]
    simp [lookupD]

/-- C10: when no evaluated period is a loss (`totalDraws = winDraws`,
including the zero-period case), `profitRatio` equals the gross profit
`winDraws * WIN_PROFIT` exactly; in particular with zero evaluated periods it
is 0. -/
theorem claim_C10_profitRatio_no_loss (config : StrategyConfig)
    (draws : List DrawData)
    (h : (analyzeStrategy config draws).totalDraws =
      (analyzeStrategy config draws).winDraws) :
    (analyzeStrategy config draws).profitRatio =
        ((analyzeStrategy config draws).winDraws : ℚ) * ((WIN_PROFIT : ℤ) : ℚ) ∧
      ((analyzeStrategy config draws).totalDraws = 0 →
        (analyzeStrategy config draws).profitRatio = 0) := by
  rw [analyzeStrategy_totalDraws, analyzeStrategy_winDraws] at h
  constructor
  · rw [analyzeStrategy_profitRatio, analyzeStrategy_winDraws,
      if_pos (by rw [h]; ring)]
    push_cast
    ring
  · intro h0
    rw [analyzeStrategy_totalDraws] at h0
    have hw : (analyzeLoop config draws).winDraws = 0 := by omega
    rw [analyzeStrategy_profitRatio, if_pos (by rw [h]; ring), hw]
    norm_num

/-- Witness for C10 at a concrete empty input. -/
theorem claim_C10_witness :
    (analyzeStrategy sampleConfig []).totalDraws =
        (analyzeStrategy sampleConfig []).winDraws ∧
      ((analyzeStrategy sampleConfig []).profitRatio =
          ((analyzeStrategy sampleConfig []).winDraws : ℚ) * ((WIN_PROFIT : ℤ) : ℚ) ∧
        ((analyzeStrategy sampleConfig []).totalDraws = 0 →
          (analyzeStrategy sampleConfig []).profitRatio = 0)) :=
  ⟨by decide, claim_C10_profitRatio_no_loss sampleConfig [] (by decide)⟩

theorem flatMap_congr_mem {α β : Type _} (l : List α) {f g : α → List β}
    (h : ∀ a ∈ l, f a = g a) : l.flatMap f = l.flatMap g := by
  induction l with
  | nil => rfl
  | cons a t ih =>
    rw [List.flatMap_cons, List.flatMap_cons, h a (by simp),
      ih (fun b hb => h b (by simp [hb]))]

theorem targetGroups_len3 : ∀ t ∈ targetGroups, t.length = 3 := by decide

theorem exists_three {α : Type _} {t : List α} (h : t.length = 3) :
    ∃ a b c, t = [a, b, c] := by
  obtain ⟨a, r, rfl, hr⟩ := length_succ_split h
  obtain ⟨b, r2, rfl, hr2⟩ := length_succ_split hr
  obtain ⟨c, r3, rfl, hr3⟩ := length_succ_split hr2
  rw [length_zero_eq hr3]
  exact ⟨a, b, c, rfl⟩

/-- C3: (1) the Batch Orchestrator's result list is, entry for entry, the
`StrategyStats` the single-config path `analyzeStrategy` produces for the
corresponding config (so the Orchestrator's entry for any config of the run
equals `analyzeStrategy` of that config); (2) the aggregates folded from the
Single-Config Recomputer's retained records — profit sum, win-record count,
record count and last cumulative profit — equal the corresponding
`StrategyStats` fields. -/
theorem claim_C3_paths_agree (draws : List DrawData) :
    workerRun draws =
        (formulas.flatMap (fun form =>
          LOOKBACKS.flatMap (fun lookback =>
            OFFSETS.flatMap (fun offset =>
              targetGroups.map (fun targets =>
                mkConfig form targets offset lookback))))).map
          (fun c => analyzeStrategy c draws) ∧
      ∀ config : StrategyConfig,
        ((generateHistory config draws).map (fun p => p.profit)).sum =
            (analyzeStrategy config draws).totalProfit ∧
          (generateHistory config draws).countP (fun p => p.isWin) =
            (analyzeStrategy config draws).winDraws ∧
          (generateHistory config draws).length =
            (analyzeStrategy config draws).totalDraws ∧
          ((generateHistory config draws).map
              (fun p => p.cumulativeProfit)).getLastD 0 =
            (analyzeStrategy config draws).totalProfit := by
  constructor
  · unfold workerRun
    rw [List.map_flatMap]
    refine flatMap_congr_mem _ (fun form hf => ?_)
    rw [List.map_flatMap]
    refine flatMap_congr_mem _ (fun lookback hl => ?_)
    rw [List.map_flatMap]
    refine flatMap_congr_mem _ (fun offset hoo => ?_)
    rw [List.map_map]
    refine List.map_congr_left (fun targets ht => ?_)
    obtain ⟨a, b, c, rfl⟩ := exists_three (targetGroups_len3 targets ht)
    exact workerAnalyze_eq form lookback offset a b c draws
  · intro config
    refine ⟨?_, ?_, ?_, ?_⟩
    · rw [generateHistory_eq, historyOf_map_profit, analyzeStrategy_totalProfit,
        (analyzeLoop_drawdown_inv config draws).1]
    · rw [analyzeStrategy_winDraws, analyzeLoop_winDraws_filter,
        ← List.countP_eq_length_filter]
      have h1 : (generateHistory config draws).countP (fun p => p.isWin) =
          ((generateHistory config draws).map (fun p => p.isWin)).countP
            (fun b => b) := by
        rw [List.countP_map]
        rfl
      rw [h1, outcomesOf_eq_history]
      unfold outcomesOf
      rw [List.countP_map]
      rfl
    · rw [generateHistory_length, analyzeStrategy_totalDraws]
    · rw [generateHistory_eq, historyOf_last_cum, analyzeStrategy_totalProfit,
        (analyzeLoop_drawdown_inv config draws).1]
      simp


/-! ### C9: enumeration size and id distinctness -/

/-- The formula degree encoded by the first character of a config id. -/
def degreeOfChar (c : Char) : ℕ :=
  if c = '1' then 1
  else if c = '2' then 2
  else if c = '3' then 3
  else if c = '4' then 4
  else if c = '5' then 5
  else 0

/-- Slicing an id string into its six components, driven by the degree read
from the first character (each segment of an id has a length determined by
the degree, except the final lookback segment which is the remainder). -/
def sliceId (s : List Char) :
    List Char × List Char × List Char × List Char × List Char × List Char :=
  let d := degreeOfChar (s.headD ' ')
  (s.take 5,
   (s.drop 6).take d,
   ((s.drop 6).drop (d + 1)).take (d - 1),
   (((s.drop 6).drop (d + 1)).drop (d - 1 + 2)).take 3,
   ((((s.drop 6).drop (d + 1)).drop (d - 1 + 2)).drop 5).take 1,
   ((((s.drop 6).drop (d + 1)).drop (d - 1 + 2)).drop 5).drop 3)

/-- The six id components of a config, as strings. -/
def stringCoords (c : StrategyConfig) :
    List Char × List Char × List Char × List Char × List Char × List Char :=
  (typeChars c.type, digitsJoin c.inputIndices, opsJoin c.operators,
   digitsJoin c.targetIndices, natChars c.offset, natChars c.lookback)

/-- Constructor index of an operator (used only to build a numeric
distinctness key for the formula list). -/
def opTag : Op → ℕ
  | Op.add => 0
  | Op.sub => 1
  | Op.mul => 2

/-- Constructor index of a formula type (used only to build a numeric
distinctness key for the formula list). -/
def typeTag : FormulaType → ℕ
  | FormulaType.ONE_POS => 0
  | FormulaType.TWO_POS => 1
  | FormulaType.THREE_POS => 2
  | FormulaType.FOUR_POS => 3
  | FormulaType.FIVE_POS => 4

/-- Base-6 positional code of an input-position list. -/
def inputsCode (l : List (Fin 5)) : ℕ := l.foldl (fun a x => a * 6 + (x.val + 1)) 0

/-- Base-4 positional code of an operator list. -/
def opsCode (l : List Op) : ℕ := l.foldl (fun a o => a * 4 + (opTag o + 1)) 0

/-- A numeric key of a formula's structural triple; it happens to be strictly
increasing along the enumeration order of `formulas`, which gives distinctness
of the triples by a linear scan instead of a quadratic comparison. -/
def structKey (p : FormulaType × List (Fin 5) × List Op) : ℕ :=
  typeTag p.1 + 5 * opsCode p.2.2 + 1280 * inputsCode p.2.1

/-- The number of input positions that each formula type carries. -/
def lenOfType : FormulaType → ℕ
  | FormulaType.ONE_POS => 1
  | FormulaType.TWO_POS => 2
  | FormulaType.THREE_POS => 3
  | FormulaType.FOUR_POS => 4
  | FormulaType.FIVE_POS => 5

/-- The decimal digit character of a position index. -/
def finDigit : Fin 5 → Char
  | 0 => '0'
  | 1 => '1'
  | 2 => '2'
  | 3 => '3'
  | 4 => '4'

/-- Boolean strict sortedness of a list of naturals (adjacent comparisons). -/
def sortedLt : List ℕ → Bool
  | [] => true
  | [_] => true
  | a :: b :: t => a < b && sortedLt (b :: t)

theorem typeChars_length (t : FormulaType) : (typeChars t).length = 5 := by
  cases t <;> rfl

theorem typeChars_ne_nil (t : FormulaType) : typeChars t ≠ [] := by
  cases t <;> simp [typeChars]

theorem headD_append {A r : List Char} (x : Char) (h : A ≠ []) :
    (A ++ r).headD x = A.headD x := by
  cases A with
  | nil => exact absurd rfl h
  | cons a t => rfl

theorem take_exact {α : Type _} {A r : List α} {n : ℕ} (h : A.length = n) :
    (A ++ r).take n = A := List.take_left' h

theorem drop_skip1 {α : Type _} {A : List α} {c : α} {r : List α} {n : ℕ}
    (h : A.length = n) : (A ++ c :: r).drop (n + 1) = r := by
  rw [← List.drop_drop, List.drop_left' h]
  rfl

theorem drop_skip2 {α : Type _} {A : List α} {c1 c2 : α} {r : List α} {n : ℕ}
    (h : A.length = n) : (A ++ c1 :: c2 :: r).drop (n + 2) = r := by
  rw [← List.drop_drop, List.drop_left' h]
  rfl

theorem drop_skip1_5 {α : Type _} {A : List α} {c : α} {r : List α}
    (h : A.length = 5) : (A ++ c :: r).drop 6 = r := drop_skip1 h

theorem drop_skip2_3 {α : Type _} {A : List α} {c1 c2 : α} {r : List α}
    (h : A.length = 3) : (A ++ c1 :: c2 :: r).drop 5 = r := drop_skip2 h

theorem drop_skip2_1 {α : Type _} {A : List α} {c1 c2 : α} {r : List α}
    (h : A.length = 1) : (A ++ c1 :: c2 :: r).drop 3 = r := drop_skip2 h

/-- Slicing inverts id construction whenever the components have the segment
lengths the enumeration guarantees. -/
theorem sliceId_idChars (type : FormulaType) (inputs : List (Fin 5))
    (ops : List Op) (targets : List (Fin 5)) (o l : ℕ)
    (hd : degreeOfChar ((typeChars type).headD ' ') = inputs.length)
    (hinp : (digitsJoin inputs).length = inputs.length)
    (hops : (opsJoin ops).length = inputs.length - 1)
    (htgt : (digitsJoin targets).length = 3)
    (hoff : (natChars o).length = 1) :
    sliceId (idChars type inputs ops targets o l) =
      (typeChars type, digitsJoin inputs, opsJoin ops, digitsJoin targets,
        natChars o, natChars l) := by
  simp only [sliceId, idChars, List.append_assoc, List.cons_append]
  rw [headD_append ' ' (typeChars_ne_nil type), hd,
    take_exact (typeChars_length type), drop_skip1_5 (typeChars_length type),
    take_exact hinp, drop_skip1 hinp, take_exact hops, drop_skip2 hops,
    take_exact htgt, drop_skip2_3 htgt, take_exact hoff, drop_skip2_1 hoff]

theorem mem_generateStrategies {c : StrategyConfig}
    (hc : c ∈ generateStrategies) :
    ∃ f ∈ formulas, ∃ t ∈ targetGroups, ∃ o ∈ OFFSETS, ∃ l ∈ LOOKBACKS,
      c = mkConfig f t o l := by
  unfold generateStrategies at hc
  simp only [List.mem_flatMap, List.mem_map] at hc
  obtain ⟨f, hf, t, ht, o, ho, l, hl, hceq⟩ := hc
  exact ⟨f, hf, t, ht, o, ho, l, hl, hceq.symm⟩

theorem sortedLt_cons : ∀ (a : ℕ) (l : List ℕ), sortedLt (a :: l) = true →
    sortedLt l = true ∧ ∀ x ∈ l, a < x
  | _, [], _ => ⟨rfl, by simp⟩
  | a, b :: t, h => by
    have h' : (decide (a < b) && sortedLt (b :: t)) = true := h
    rw [Bool.and_eq_true, decide_eq_true_eq] at h'
    obtain ⟨hab, hbt⟩ := h'
    have ih := sortedLt_cons b t hbt
    refine ⟨hbt, ?_⟩
    intro x hx
    rcases List.mem_cons.mp hx with h1 | h2
    · subst h1
      exact hab
    · exact Nat.lt_trans hab (ih.2 x h2)

theorem sortedLt_pairwise : ∀ l : List ℕ, sortedLt l = true →
    List.Pairwise (fun a b => a < b) l
  | [], _ => List.Pairwise.nil
  | a :: l, h =>
    List.Pairwise.cons (sortedLt_cons a l h).2 (sortedLt_pairwise l (sortedLt_cons a l h).1)

set_option maxRecDepth 10000 in
theorem formulas_key_sorted :
    sortedLt (formulas.map (fun f => structKey (f.type, f.inputs, f.ops))) = true := by
  decide

theorem formulas_struct_nodup :
    (formulas.map (fun f => (f.type, f.inputs, f.ops))).Nodup := by
  have hp : List.Pairwise (fun a b : ℕ => a < b)
      (formulas.map (fun f => structKey (f.type, f.inputs, f.ops))) :=
    sortedLt_pairwise _ formulas_key_sorted
  have h : ((formulas.map (fun f => (f.type, f.inputs, f.ops))).map structKey).Nodup := by
    rw [List.map_map]
    exact hp.imp (fun hlt => Nat.ne_of_lt hlt)
  exact h.of_map _

theorem natChars_fin : ∀ x : Fin 5, natChars x.val = [finDigit x] := by decide

theorem digitsJoin_eq_map (l : List (Fin 5)) : digitsJoin l = l.map finDigit := by
  unfold digitsJoin
  induction l with
  | nil => rfl
  | cons x t ih =>
      rw [List.flatMap_cons, List.map_cons, natChars_fin x, ih, List.singleton_append]

theorem finDigit_inj : ∀ a b : Fin 5, finDigit a = finDigit b → a = b := by decide

theorem digitsJoin_inj {a b : List (Fin 5)} (h : digitsJoin a = digitsJoin b) :
    a = b := by
  rw [digitsJoin_eq_map, digitsJoin_eq_map] at h
  exact List.map_injective_iff.mpr (fun x y hxy => finDigit_inj x y hxy) h

theorem typeChars_inj : ∀ a b : FormulaType, typeChars a = typeChars b → a = b := by
  intro a b
  cases a <;> cases b <;> intro h <;> first | rfl | exact absurd h (by decide)

theorem opChar_inj : ∀ a b : Op, opChar a = opChar b → a = b := by
  intro a b
  cases a <;> cases b <;> intro h <;> first | rfl | exact absurd h (by decide)

theorem opsJoin_inj {a b : List Op} (h : opsJoin a = opsJoin b) : a = b := by
  unfold opsJoin at h
  exact List.map_injective_iff.mpr (fun x y hxy => opChar_inj x y hxy) h

theorem formulas_proj_nodup :
    (formulas.map (fun f =>
      (typeChars f.type, digitsJoin f.inputs, opsJoin f.ops))).Nodup := by
  have heq : (formulas.map (fun f =>
      (typeChars f.type, digitsJoin f.inputs, opsJoin f.ops)))
      = (formulas.map (fun f => (f.type, f.inputs, f.ops))).map
        (fun p => (typeChars p.1, digitsJoin p.2.1, opsJoin p.2.2)) := by
    rw [List.map_map]
    rfl
  rw [heq]
  refine List.Nodup.map ?_ formulas_struct_nodup
  rintro ⟨pt, pi, po⟩ ⟨qt, qi, qo⟩ h
  simp only [Prod.mk.injEq] at h
  obtain ⟨h1, h2, h3⟩ := h
  cases typeChars_inj _ _ h1
  cases digitsJoin_inj h2
  cases opsJoin_inj h3
  rfl

set_option maxRecDepth 10000 in
theorem formulas_struct_facts : ∀ f ∈ formulas,
    f.inputs.length = lenOfType f.type ∧ f.ops.length = f.inputs.length - 1 := by
  decide

theorem degree_typeChars : ∀ t : FormulaType,
    degreeOfChar ((typeChars t).headD ' ') = lenOfType t := by
  intro t
  cases t <;> decide

theorem formulas_facts : ∀ f ∈ formulas,
    degreeOfChar ((typeChars f.type).headD ' ') = f.inputs.length ∧
      (digitsJoin f.inputs).length = f.inputs.length ∧
      (opsJoin f.ops).length = f.inputs.length - 1 := by
  intro f hf
  obtain ⟨h1, h2⟩ := formulas_struct_facts f hf
  refine ⟨?_, ?_, ?_⟩
  · rw [degree_typeChars, h1]
  · rw [digitsJoin_eq_map, List.length_map]
  · show (f.ops.map opChar).length = _
    rw [List.length_map, h2]

set_option maxRecDepth 100000 in
theorem targetGroups_digits_len : ∀ t ∈ targetGroups,
    (digitsJoin t).length = 3 := by decide

set_option maxRecDepth 100000 in
theorem targetGroups_digits_nodup : (targetGroups.map digitsJoin).Nodup := by
  decide

theorem OFFSETS_natChars_len : ∀ o ∈ OFFSETS, (natChars o).length = 1 := by
  decide

theorem OFFSETS_natChars_nodup : (OFFSETS.map natChars).Nodup := by decide

set_option maxRecDepth 100000 in
theorem LOOKBACKS_natChars_nodup : (LOOKBACKS.map natChars).Nodup := by decide

set_option maxRecDepth 10000 in
theorem formulas_length : formulas.length = 341 := by decide

theorem targetGroups_length : targetGroups.length = 10 := by decide

theorem length_flatMap_const {α β : Type _} :
    ∀ (l : List α) (g : α → List β) (k : ℕ),
      (∀ a ∈ l, (g a).length = k) → (l.flatMap g).length = l.length * k
  | [], _, _, _ => by simp
  | a :: t, g, k, h => by
    rw [List.flatMap_cons, List.length_append, h a (by simp),
      length_flatMap_const t g k (fun b hb => h b (by simp [hb])),
      List.length_cons]
    ring

theorem generateStrategies_length : generateStrategies.length = 204600 := by
  unfold generateStrategies
  have h3 : ∀ (f : Formula) (t : List (Fin 5)) (o : ℕ),
      (LOOKBACKS.map (fun l => mkConfig f t o l)).length = 12 := by
    intro f t o
    simp [LOOKBACKS]
  have h2 : ∀ (f : Formula) (t : List (Fin 5)),
      (OFFSETS.flatMap (fun o =>
        LOOKBACKS.map (fun l => mkConfig f t o l))).length = 60 := by
    intro f t
    rw [length_flatMap_const _ _ 12 (fun o _ => h3 f t o)]
    rfl
  have h1 : ∀ (f : Formula),
      (targetGroups.flatMap (fun t => OFFSETS.flatMap (fun o =>
        LOOKBACKS.map (fun l => mkConfig f t o l)))).length = 600 := by
    intro f
    rw [length_flatMap_const _ _ 60 (fun t _ => h2 f t), targetGroups_length]
  rw [length_flatMap_const _ _ 600 (fun f _ => h1 f), formulas_length]

theorem nodup_flatMap_disjoint {α β : Type _} :
    ∀ (l : List α) (g : α → List β), l.Nodup → (∀ a ∈ l, (g a).Nodup) →
      (∀ a ∈ l, ∀ b ∈ l, a ≠ b → ∀ x ∈ g a, x ∉ g b) → (l.flatMap g).Nodup
  | [], _, _, _, _ => by simp
  | a :: t, g, hnd, hga, hdisj => by
    rw [List.flatMap_cons]
    apply List.Nodup.append
    · exact hga a (by simp)
    · exact nodup_flatMap_disjoint t g (List.nodup_cons.mp hnd).2
        (fun b hb => hga b (by simp [hb]))
        (fun b hb c hc hbc => hdisj b (by simp [hb]) c (by simp [hc]) hbc)
    · intro x hx1 hx2
      rw [List.mem_flatMap] at hx2
      obtain ⟨b, hb, hxb⟩ := hx2
      have hab : a ≠ b := fun h => (List.nodup_cons.mp hnd).1 (h ▸ hb)
      exact hdisj a (by simp) b (by simp [hb]) hab x hx1 hxb

theorem generateStrategies_map_sc :
    generateStrategies.map stringCoords =
      formulas.flatMap (fun f => targetGroups.flatMap (fun t =>
        OFFSETS.flatMap (fun o => LOOKBACKS.map (fun l =>
          stringCoords (mkConfig f t o l))))) := by
  unfold generateStrategies
  simp only [List.map_flatMap, List.map_map]
  rfl

theorem sc_nodup : (generateStrategies.map stringCoords).Nodup := by
  rw [generateStrategies_map_sc]
  apply nodup_flatMap_disjoint
  · exact List.Nodup.of_map _ formulas_proj_nodup
  · intro f hf
    apply nodup_flatMap_disjoint
    · exact List.Nodup.of_map _ targetGroups_digits_nodup
    · intro t ht
      apply nodup_flatMap_disjoint
      · exact List.Nodup.of_map _ OFFSETS_natChars_nodup
      · intro o ho
        refine List.Nodup.map_on (fun l1 hl1 l2 hl2 heq => ?_)
          (List.Nodup.of_map _ LOOKBACKS_natChars_nodup)
        have h6 : natChars l1 = natChars l2 :=
          congrArg (fun x => x.2.2.2.2.2) heq
        exact List.inj_on_of_nodup_map LOOKBACKS_natChars_nodup hl1 hl2 h6
      · intro o1 ho1 o2 ho2 hne x hx1 hx2
        simp only [List.mem_map] at hx1 hx2
        obtain ⟨l1, -, hl1⟩ := hx1
        obtain ⟨l2, -, hl2⟩ := hx2
        have h5 : natChars o1 = natChars o2 := by
          have e1 : x.2.2.2.2.1 = natChars o1 := by rw [← hl1]; rfl
          have e2 : x.2.2.2.2.1 = natChars o2 := by rw [← hl2]; rfl
          rw [← e1, e2]
        exact hne (List.inj_on_of_nodup_map OFFSETS_natChars_nodup ho1 ho2 h5)
    · intro t1 ht1 t2 ht2 hne x hx1 hx2
      simp only [List.mem_flatMap, List.mem_map] at hx1 hx2
      obtain ⟨o1, -, l1, -, hl1⟩ := hx1
      obtain ⟨o2, -, l2, -, hl2⟩ := hx2
      have h4 : digitsJoin t1 = digitsJoin t2 := by
        have e1 : x.2.2.2.1 = digitsJoin t1 := by rw [← hl1]; rfl
        have e2 : x.2.2.2.1 = digitsJoin t2 := by rw [← hl2]; rfl
        rw [← e1, e2]
      exact hne (List.inj_on_of_nodup_map targetGroups_digits_nodup ht1 ht2 h4)
  · intro f1 hf1 f2 hf2 hne x hx1 hx2
    simp only [List.mem_flatMap, List.mem_map] at hx1 hx2
    obtain ⟨t1, -, o1, -, l1, -, hl1⟩ := hx1
    obtain ⟨t2, -, o2, -, l2, -, hl2⟩ := hx2
    have h3 : (typeChars f1.type, digitsJoin f1.inputs, opsJoin f1.ops) =
        (typeChars f2.type, digitsJoin f2.inputs, opsJoin f2.ops) := by
      have e1 : (x.1, x.2.1, x.2.2.1) =
          (typeChars f1.type, digitsJoin f1.inputs, opsJoin f1.ops) := by
        rw [← hl1]
        rfl
      have e2 : (x.1, x.2.1, x.2.2.1) =
          (typeChars f2.type, digitsJoin f2.inputs, opsJoin f2.ops) := by
        rw [← hl2]
        rfl
      rw [← e1, e2]
    exact hne (List.inj_on_of_nodup_map formulas_proj_nodup hf1 hf2 h3)

theorem ids_slice :
    (generateStrategies.map (fun c => c.id)).map sliceId =
      generateStrategies.map stringCoords := by
  rw [List.map_map]
  apply List.map_congr_left
  intro c hc
  obtain ⟨f, hf, t, ht, o, ho, l, hl, rfl⟩ := mem_generateStrategies hc
  obtain ⟨h1, h2, h3⟩ := formulas_facts f hf
  exact sliceId_idChars f.type f.inputs f.ops t o l h1 h2 h3
    (targetGroups_digits_len t ht) (OFFSETS_natChars_len o ho)

theorem ids_nodup : (generateStrategies.map (fun c => c.id)).Nodup := by
  apply List.Nodup.of_map sliceId
  rw [ids_slice]
  exact sc_nodup

/-- C9: the enumeration produces exactly 341 formula definitions — which is
`Σ_{d=1..5} C(5,d)·3^(d-1)` — crossed with the 10 target groups, 5 offsets
and 12 lookbacks into exactly 204,600 configs per run, whose id strings are
pairwise distinct. -/
theorem claim_C9_enumeration :
    formulas.length = 341 ∧
      (Finset.range 5).sum (fun d => Nat.choose 5 (d + 1) * 3 ^ d) = 341 ∧
      targetGroups.length = 10 ∧
      OFFSETS.length = 5 ∧ LOOKBACKS.length = 12 ∧
      generateStrategies.length = 204600 ∧
      (generateStrategies.map (fun c => c.id)).Nodup :=
  ⟨formulas_length, by decide, targetGroups_length, rfl, rfl,
    generateStrategies_length, ids_nodup⟩

end P5
